import Mathlib

/-
Shallow embedding of the imgcat2 half-block ANSI renderer and the
GIF/APNG animation frame compositor, together with proofs about them.

Modelling conventions:
* `uint8_t` byte values are `Nat`s; theorems that depend on byte ranges
  carry explicit `≤ 255` hypotheses.  Casts `(uint8_t)e` are `e % 256`.
* Pixel buffers (`uint8_t *pixels`, RGBA8888) are modelled at pixel
  granularity as functions `Nat → Pixel` from linear pixel index
  `y * width + x` to the 4-byte pixel, since every access in the
  modelled code touches aligned 4-byte groups
  (`image_get_pixel` / `image_set_pixel` / `memcpy` of `w*h*4` bytes).
* `snprintf(ptr, remaining, fmt, ...)` is modelled as producing the
  formatted string; its return value is the byte length of that string,
  and the caller's `written >= remaining` overflow check is kept.
* Index arithmetic is in `Nat`.  The one place where `uint32_t`
  wrap-around is reachable with a valid argument, `img->height - 1`
  in `generate_line_ansi`, is modelled explicitly
  (`heightMinusOneU32`); elsewhere the canvas invariants enforced by
  `image_create` (dimensions ≤ 16384, pixel count ≤ 100 000 000) keep
  every intermediate below 2^32, and theorems carry those bounds.
-/

namespace Imgcat

/-- RGBA pixel: the four `uint8_t` channels of one 4-byte pixel, in
channel order R, G, B, A (see `image.h`). -/
structure Pixel where
  r : Nat
  g : Nat
  b : Nat
  a : Nat
deriving DecidableEq

/-- RGB triple of a GIF palette entry (`GifColorType`). -/
structure Rgb where
  r : Nat
  g : Nat
  b : Nat
deriving DecidableEq

/-- Embedding of `image_t` from `core/image.h`: width, height, and the
RGBA8888 pixel buffer modelled as a function from linear pixel index
`y * width + x` to the pixel. -/
structure Image where
  width : Nat
  height : Nat
  pixels : Nat → Pixel

/-- Maximum width or height per axis (`IMAGE_MAX_DIMENSION`, image.h). -/
def IMAGE_MAX_DIMENSION : Nat := 16384

/-- Maximum total pixels (`IMAGE_MAX_PIXELS`, image.h). -/
def IMAGE_MAX_PIXELS : Nat := 100000000

/-- Embedding of `image_calculate_size` (core/image.c): validates the
dimension limits and returns the byte count `width*height*4`.  The
`byte_count / 4 != pixel_count` overflow re-check of the C code cannot
fire once `pixel_count ≤ 10^8` holds on a 64-bit `size_t`, and `Nat`
does not overflow, so it is omitted. -/
def image_calculate_size (width height : Nat) : Option Nat :=
  if width = 0 ∨ height = 0 then none
  else if IMAGE_MAX_DIMENSION < width ∨ IMAGE_MAX_DIMENSION < height then none
  else if IMAGE_MAX_PIXELS < width * height then none
  else some (width * height * 4)

/-- Embedding of `image_create` (core/image.c): validates dimensions via
`image_calculate_size` and returns a zero-initialized (transparent
black) canvas.  Allocation failure is not modelled. -/
def image_create (width height : Nat) : Option Image :=
  (image_calculate_size width height).map fun _ =>
    { width := width, height := height, pixels := fun _ => ⟨0, 0, 0, 0⟩ }

/-- Embedding of `image_get_pixel` (core/image.h): bounds-checked read,
`NULL` becomes `none`. -/
def image_get_pixel (img : Image) (x y : Nat) : Option Pixel :=
  if x < img.width ∧ y < img.height then some (img.pixels (y * img.width + x)) else none

/-- Overwrite one pixel of the buffer at a given linear index. -/
def Image.setIdx (img : Image) (idx : Nat) (p : Pixel) : Image :=
  { img with pixels := fun i => if i = idx then p else img.pixels i }

/-- Embedding of `image_set_pixel` (core/image.h): bounds-checked write;
out-of-bounds writes are silently dropped (the C function returns
`false`, a value its modelled callers ignore). -/
def image_set_pixel (img : Image) (x y r g b a : Nat) : Image :=
  if x < img.width ∧ y < img.height then img.setIdx (y * img.width + x) ⟨r, g, b, a⟩
  else img

/-! ANSI escape sequence constants from `ansi/ansi.h`. -/

/-- Reset all attributes (`ANSI_RESET`). -/
def ANSI_RESET : String := "\x1b[0m"

/-- Formatted `ANSI_BG_RGB` escape: set background to RGB. -/
def ansiBgRgb (r g b : Nat) : String :=
  "\x1b[48;2;" ++ toString r ++ ";" ++ toString g ++ ";" ++ toString b ++ "m"

/-- Formatted `ANSI_FG_RGB_HALFBLOCK` escape: set foreground to RGB and
emit the half-block glyph U+2584. -/
def ansiFgRgbHalfblock (r g b : Nat) : String :=
  "\x1b[38;2;" ++ toString r ++ ";" ++ toString g ++ ";" ++ toString b ++ "m▄"

/-- Transparent/default background escape (`ANSI_BG_TRANSPARENT`). -/
def ANSI_BG_TRANSPARENT : String := "\x1b[0;39;49m"

/-- Transparent foreground escape plus a space (`ANSI_FG_TRANSPARENT`). -/
def ANSI_FG_TRANSPARENT : String := "\x1b[0m "

/-- Maximum line buffer size in bytes (`MAX_LINE_BUFFER_SIZE`,
ansi/escape.h). -/
def MAX_LINE_BUFFER_SIZE : Nat := 51200

/-- Byte length of the UTF-8 encoding of a string; this is what
`snprintf` returns for a fully written formatted string. -/
def strBytes (s : String) : Nat := (s.data.map Char.utf8Size).sum

/-- One `snprintf` call of `generate_line_ansi`: given the bytes already
in the buffer and the remaining capacity, append `chunk`.  Fails (as the
C code does on `written >= remaining`) when the chunk does not fit
together with its terminating NUL. -/
def snwrite (st : String × Nat) (chunk : String) : Option (String × Nat) :=
  if st.2 ≤ strBytes chunk then none else some (st.1 ++ chunk, st.2 - strBytes chunk)

/-- Background escape chosen from the top pixel in `generate_line_ansi`:
transparent when `alpha < 128`, else true-color background. -/
def bgEscape (p : Pixel) : String :=
  if p.a < 128 then ANSI_BG_TRANSPARENT else ansiBgRgb p.r p.g p.b

/-- Foreground escape chosen from the bottom pixel in
`generate_line_ansi`: reset-plus-space when `alpha < 128`, else
true-color foreground followed by the half-block glyph. -/
def fgEscape (p : Pixel) : String :=
  if p.a < 128 then ANSI_FG_TRANSPARENT else ansiFgRgbHalfblock p.r p.g p.b

/-- The `img->height - 1` bound of `generate_line_ansi`, computed in
`uint32_t`: for `height = 0` the subtraction wraps to `2^32 - 1`. -/
def heightMinusOneU32 (h : Nat) : Nat := if h = 0 then 4294967295 else h - 1

/-- Loop body of `generate_line_ansi` for one column `x`: fetch the top
and bottom pixels (failing like the C code if `image_get_pixel` returns
`NULL`), then write the background escape and the foreground escape with
their individual overflow checks. -/
def lineCellStep (img : Image) (y_top : Nat) (acc : Option (String × Nat)) (x : Nat) :
    Option (String × Nat) :=
  acc.bind fun st =>
    match image_get_pixel img x y_top, image_get_pixel img x (y_top + 1) with
    | some top, some bottom =>
        (snwrite st (bgEscape top)).bind fun st1 => snwrite st1 (fgEscape bottom)
    | _, _ => none

/-- Embedding of `generate_line_ansi` (ansi/escape.c): validates that
`y_top` is even and `y_top < height - 1` (with the `uint32_t` wrap of
`height - 1`), then emits, per column, background and foreground escapes
into the fixed-size buffer, and finally the reset-plus-newline.  Returns
the buffer contents on success and `none` (the C `NULL`) on any failure.
The `NULL`-argument checks and the no-op escape cache are not modelled. -/
def generate_line_ansi (img : Image) (y_top : Nat) : Option String :=
  if y_top % 2 ≠ 0 ∨ heightMinusOneU32 img.height ≤ y_top then none
  else
    ((List.range img.width).foldl (lineCellStep img y_top)
        (some ("", MAX_LINE_BUFFER_SIZE))).bind fun st =>
      (snwrite st (ANSI_RESET ++ "\n")).map Prod.fst

/-- Sequential line generation loop of `generate_frame_ansi`: generate
one line per `y` in the list, aborting at the first failure. -/
def mapLines (img : Image) : List Nat → Option (List String)
  | [] => some []
  | y :: rest =>
      (generate_line_ansi img y).bind fun s => (mapLines img rest).map fun ls => s :: ls

/-- Embedding of `generate_frame_ansi` (ansi/escape.c).  The first
component is the returned line array (`none` for the C `NULL`); the
second is the value stored through the `line_count` out-parameter
(`none` when the C code returns without writing it).  The loop
`for (y = 0; y < height - 1; y += 2)` visits exactly the even rows
`2*i` for `i < height / 2`.  Allocation failures are not modelled. -/
def generate_frame_ansi (img : Image) : Option (List String) × Option Nat :=
  let num_lines := img.height / 2
  if num_lines = 0 then (none, some 0)
  else
    match mapLines img ((List.range num_lines).map fun i => 2 * i) with
    | none => (none, none)
    | some lines => (some lines, some num_lines)

/-- Escape-code pair emitted for column `x` of the line with top row
`y_top`: background from the top pixel, then foreground from the bottom
pixel. -/
def cellString (img : Image) (y_top x : Nat) : String :=
  bgEscape (img.pixels (y_top * img.width + x)) ++
    fgEscape (img.pixels ((y_top + 1) * img.width + x))

/-- Concatenation of the first `n` per-column escape pairs of a line, in
left-to-right column order. -/
def cellsString (img : Image) (y_top n : Nat) : String :=
  String.join ((List.range n).map (cellString img y_top))

/-- The complete escape sequence of one line: every column's
background/foreground pair in left-to-right order, then the full
attribute reset and a newline. -/
def fullLine (img : Image) (y_top : Nat) : String :=
  cellsString img y_top img.width ++ (ANSI_RESET ++ "\n")

/-! Animation frame compositor: shared region-loop shape, then the
APNG compositor from `decoders/decoder_png.c` and the GIF compositor
from `decoders/decoder_gif.c`. -/

/-- The `for (y) for (x)` double loop over a frame region shared by
`apng_composite_frame`, `frame_composition` and the disposal-background
clears: fold the per-pixel step over rows, columns innermost. -/
def regionFold (fw fh : Nat) (step : Image → Nat → Nat → Image) (acc : Image) : Image :=
  (List.range fh).foldl
    (fun a y => (List.range fw).foldl (fun a2 x => step a2 x y) a) acc

/-- APNG disposal operation `PNG_DISPOSE_OP_NONE` (libpng). -/
def PNG_DISPOSE_OP_NONE : Nat := 0

/-- APNG disposal operation `PNG_DISPOSE_OP_BACKGROUND` (libpng). -/
def PNG_DISPOSE_OP_BACKGROUND : Nat := 1

/-- APNG disposal operation `PNG_DISPOSE_OP_PREVIOUS` (libpng). -/
def PNG_DISPOSE_OP_PREVIOUS : Nat := 2

/-- APNG blend operation `PNG_BLEND_OP_SOURCE` (libpng). -/
def PNG_BLEND_OP_SOURCE : Nat := 0

/-- APNG blend operation `PNG_BLEND_OP_OVER` (libpng). -/
def PNG_BLEND_OP_OVER : Nat := 1

/-- The `BLEND_OP_OVER` branch of `apng_composite_frame`: output alpha
`src_a + dst_a*(255-src_a)/255` in integer arithmetic; when positive,
each colour channel is blended and stored through a `uint8_t` cast
(`% 256`), and the alpha byte is stored the same way; when zero, the
destination pixel is left untouched. -/
def blendOver (src dst : Pixel) : Pixel :=
  let out_a := src.a + dst.a * (255 - src.a) / 255
  if 0 < out_a then
    { r := (src.r * src.a + dst.r * dst.a * (255 - src.a) / 255) / out_a % 256,
      g := (src.g * src.a + dst.g * dst.a * (255 - src.a) / 255) / out_a % 256,
      b := (src.b * src.a + dst.b * dst.a * (255 - src.a) / 255) / out_a % 256,
      a := out_a % 256 }
  else dst

/-- Per-pixel combine of `apng_composite_frame`: `BLEND_OP_SOURCE`
replaces the destination, anything else alpha-blends over it. -/
def compositePixelPng (blend_op : Nat) (src dst : Pixel) : Pixel :=
  if blend_op = PNG_BLEND_OP_SOURCE then src else blendOver src dst

/-- Embedding of `apng_composite_frame` (decoders/decoder_png.c):
composite a frame's pixels onto the accumulator at the given offset,
skipping positions outside the canvas, replacing on `BLEND_OP_SOURCE`
and alpha-blending otherwise.  The `NULL`-argument checks are not
modelled. -/
def apng_composite_frame (accumulator : Image) (frame_pixels : Nat → Pixel)
    (x_offset y_offset frame_width frame_height canvas_width canvas_height blend_op : Nat) :
    Image :=
  regionFold frame_width frame_height
    (fun acc2 x y =>
      let canvas_x := x_offset + x
      let canvas_y := y_offset + y
      if canvas_width ≤ canvas_x ∨ canvas_height ≤ canvas_y then acc2
      else
        let src := frame_pixels (y * frame_width + x)
        let idx := canvas_y * canvas_width + canvas_x
        acc2.setIdx idx (compositePixelPng blend_op src (acc2.pixels idx)))
    accumulator

/-- GIF disposal mode `DISPOSAL_UNSPECIFIED` (giflib). -/
def DISPOSAL_UNSPECIFIED : Nat := 0

/-- GIF disposal mode `DISPOSE_DO_NOT` (giflib). -/
def DISPOSE_DO_NOT : Nat := 1

/-- GIF disposal mode `DISPOSE_BACKGROUND` (giflib). -/
def DISPOSE_BACKGROUND : Nat := 2

/-- GIF disposal mode `DISPOSE_PREVIOUS` (giflib). -/
def DISPOSE_PREVIOUS : Nat := 3

/-- Embedding of giflib's `ColorMapObject`: `ColorCount` and the
`Colors` array. -/
structure ColorMap where
  colorCount : Nat
  colors : Nat → Rgb

/-- Embedding of `gif_index_to_rgba` (decoders/decoder_gif.c): an index
outside the colour map yields transparent black; otherwise the palette
colour with alpha 0 when the index equals the transparent index and 255
otherwise.  The index and transparent index are `int`s in C; raster
bytes are non-negative, the no-transparency sentinel is `-1`. -/
def gif_index_to_rgba (color_map : ColorMap) (index : Int) (transparent_color : Int) :
    Pixel :=
  if index < 0 ∨ (color_map.colorCount : Int) ≤ index then ⟨0, 0, 0, 0⟩
  else
    let c := color_map.colors index.toNat
    ⟨c.r, c.g, c.b, if index = transparent_color then 0 else 255⟩

/-- Embedding of `frame_composition` (decoders/decoder_gif.c): for each
region position, skip the pixel entirely when its raster index equals
the transparent index; otherwise look up its RGBA colour and, when the
looked-up alpha is at least 128 and the canvas position is in bounds,
overwrite the accumulator pixel via `image_set_pixel`.  The
`NULL`-argument checks are not modelled. -/
def frame_composition (accumulator : Image) (raster : Nat → Nat) (color_map : ColorMap)
    (transparent_color : Int) (img_left img_top img_width img_height
    canvas_width canvas_height : Nat) : Image :=
  regionFold img_width img_height
    (fun acc2 x y =>
      let index : Int := (raster (y * img_width + x) : Nat)
      if index = transparent_color then acc2
      else
        let rgba := gif_index_to_rgba color_map index transparent_color
        if 128 ≤ rgba.a then
          let canvas_x := img_left + x
          let canvas_y := img_top + y
          if canvas_x < canvas_width ∧ canvas_y < canvas_height then
            image_set_pixel acc2 canvas_x canvas_y rgba.r rgba.g rgba.b rgba.a
          else acc2
        else acc2)
    accumulator

/-- Fresh full-canvas copy of the accumulator: `image_create` (zeroed)
followed by `memcpy` of `canvas_width * canvas_height * 4` bytes, as
used for the `previous` backup and for each output frame snapshot. -/
def copyCanvas (cw ch : Nat) (src : Image) : Image :=
  { width := cw, height := ch,
    pixels := fun i => if i < cw * ch then src.pixels i else ⟨0, 0, 0, 0⟩ }

/-- In-place `memcpy` of `canvas_width * canvas_height * 4` bytes from
`src` into `dst`, as used to restore the accumulator from the backup. -/
def overwriteCanvas (cw ch : Nat) (dst src : Image) : Image :=
  { dst with pixels := fun i => if i < cw * ch then src.pixels i else dst.pixels i }

/-- The disposal-`Background` clear loop shared verbatim by
`decode_gif_animated` and `decode_png_animated`: set every in-bounds
pixel of the frame region to transparent black via `image_set_pixel`. -/
def clearRegionToTransparent (acc : Image) (left top w h cw ch : Nat) : Image :=
  regionFold w h
    (fun a2 x y =>
      let canvas_x := left + x
      let canvas_y := top + y
      if canvas_x < cw ∧ canvas_y < ch then image_set_pixel a2 canvas_x canvas_y 0 0 0 0
      else a2)
    acc

/-- Working state of the animation compositors: the accumulator canvas
and the lazily allocated `previous` backup (`NULL` initially). -/
structure CompositorState where
  acc : Image
  previous : Option Image

/-- One GIF frame as consumed by the `decode_gif_animated` loop: the
image descriptor's placement, the raster, the resolved colour map, the
transparent index from the graphics control block (`-1` when absent),
and the disposal mode. -/
structure GifFrame where
  left : Nat
  top : Nat
  width : Nat
  height : Nat
  raster : Nat → Nat
  colorMap : ColorMap
  transparentColor : Int
  disposalMode : Nat

/-- Maximum number of GIF frames (`MAX_GIF_FRAMES`,
decoders/decoder_gif.c). -/
def MAX_GIF_FRAMES : Nat := 200

/-- One iteration of the `decode_gif_animated` frame loop: back up the
accumulator when the disposal mode is `DISPOSE_PREVIOUS` (the lazy
zero-initialized allocation followed by the full-canvas `memcpy` yields
exactly `copyCanvas`), composite the frame, snapshot the accumulator as
the output frame, then apply the disposal mode for the next frame.
Returns the new state and the output frame. -/
def gifFrameStep (cw ch : Nat) (st : CompositorState) (f : GifFrame) :
    CompositorState × Image :=
  let st1 :=
    if f.disposalMode = DISPOSE_PREVIOUS then
      { st with previous := some (copyCanvas cw ch st.acc) }
    else st
  let acc1 := frame_composition st1.acc f.raster f.colorMap f.transparentColor
    f.left f.top f.width f.height cw ch
  let snapshot := copyCanvas cw ch acc1
  let acc2 :=
    if f.disposalMode = DISPOSE_BACKGROUND then
      clearRegionToTransparent acc1 f.left f.top f.width f.height cw ch
    else if f.disposalMode = DISPOSE_PREVIOUS then
      match st1.previous with
      | some p => overwriteCanvas cw ch acc1 p
      | none => acc1
    else acc1
  ({ acc := acc2, previous := st1.previous }, snapshot)

/-- The frame loop of `decode_gif_animated`: run `gifFrameStep` over the
frames in order, collecting the output snapshots. -/
def gifRunFrames (cw ch : Nat) : CompositorState → List GifFrame →
    CompositorState × List Image
  | st, [] => (st, [])
  | st, f :: rest =>
      let p := gifFrameStep cw ch st f
      let q := gifRunFrames cw ch p.1 rest
      (q.1, p.2 :: q.2)

/-- Embedding of `decode_gif_animated` (decoders/decoder_gif.c) from the
point where the GIF structure has been slurped: fail on zero declared
frames, clamp the frame count to `MAX_GIF_FRAMES` (recording whether
the truncation warning was printed), create the accumulator canvas
(failing when the screen dimensions are invalid), and run the frame
loop.  Per-frame colour maps are modelled as always resolved; giflib
I/O failures and allocation failures are not modelled. -/
def decode_gif_animated (cw ch : Nat) (declared : List GifFrame) :
    Option (List Image × Bool) :=
  if declared.length = 0 then none
  else
    let warn := decide (MAX_GIF_FRAMES < declared.length)
    let num_frames := min declared.length MAX_GIF_FRAMES
    match image_create cw ch with
    | none => none
    | some acc0 =>
        some ((gifRunFrames cw ch ⟨acc0, none⟩ (declared.take num_frames)).2, warn)

/-- One APNG frame as consumed by the `decode_png_animated` loop: the
fcTL placement and dimensions, disposal and blend operations, and the
decoded RGBA pixel rows. -/
structure ApngFrame where
  width : Nat
  height : Nat
  x_offset : Nat
  y_offset : Nat
  dispose_op : Nat
  blend_op : Nat
  pixels : Nat → Pixel

/-- Maximum number of APNG frames (`MAX_PNG_FRAMES`,
decoders/decoder_png.c). -/
def MAX_PNG_FRAMES : Nat := 200

/-- One iteration of the `decode_png_animated` frame loop: fail when the
frame region does not fit the canvas (before compositing anything),
otherwise back up the accumulator on `PNG_DISPOSE_OP_PREVIOUS`,
composite via `apng_composite_frame`, snapshot the output frame, and
apply the disposal operation. -/
def pngProcessFrame (cw ch : Nat) (st : CompositorState) (f : ApngFrame) :
    Option (CompositorState × Image) :=
  if cw < f.x_offset + f.width ∨ ch < f.y_offset + f.height then none
  else
    let st1 :=
      if f.dispose_op = PNG_DISPOSE_OP_PREVIOUS then
        { st with previous := some (copyCanvas cw ch st.acc) }
      else st
    let acc1 := apng_composite_frame st1.acc f.pixels f.x_offset f.y_offset
      f.width f.height cw ch f.blend_op
    let snapshot := copyCanvas cw ch acc1
    let acc2 :=
      if f.dispose_op = PNG_DISPOSE_OP_BACKGROUND then
        clearRegionToTransparent acc1 f.x_offset f.y_offset f.width f.height cw ch
      else if f.dispose_op = PNG_DISPOSE_OP_PREVIOUS then
        match st1.previous with
        | some p => overwriteCanvas cw ch acc1 p
        | none => acc1
      else acc1
    some ({ acc := acc2, previous := st1.previous }, snapshot)

/-- The frame loop of `decode_png_animated`: process frames in order,
aborting the whole decode on the first per-frame failure. -/
def pngRunFrames (cw ch : Nat) : CompositorState → List ApngFrame →
    Option (CompositorState × List Image)
  | st, [] => some (st, [])
  | st, f :: rest =>
      match pngProcessFrame cw ch st f with
      | none => none
      | some p => (pngRunFrames cw ch p.1 rest).map fun q => (q.1, p.2 :: q.2)

/-- Embedding of `decode_png_animated` (decoders/decoder_png.c) from the
point where the acTL chunk has been read: clamp the declared frame count
to `MAX_PNG_FRAMES` (recording whether the truncation warning was
printed), fail on zero frames, create the accumulator canvas, and run
the frame loop.  libpng I/O and allocation failures are not modelled. -/
def decode_png_animated (cw ch : Nat) (declared : List ApngFrame) :
    Option (List Image × Bool) :=
  let warn := decide (MAX_PNG_FRAMES < declared.length)
  let num_frames := min declared.length MAX_PNG_FRAMES
  if num_frames = 0 then none
  else
    match image_create cw ch with
    | none => none
    | some acc0 =>
        (pngRunFrames cw ch ⟨acc0, none⟩ (declared.take num_frames)).map fun p =>
          (p.2, warn)

/-! Animation playback: `render_animated` from `core/pipeline.c`,
modelled as the trace of terminal-affecting actions it performs.  The
cancellation flag set by the SIGINT handler is modelled as a predicate
on flag reads: `running k` is the value observed by the `k`-th read of
`*running`.  Frame-line pre-generation is taken as already succeeded
(its failure path returns before any terminal state is touched and is
covered by the `generate_frame_ansi` theorems). -/

/-- Terminal-affecting actions of `render_animated`, in program order. -/
inductive TermEvent where
  | cursorHide
  | cursorShow
  | disableEcho
  | enableEcho
  | reset
  | newline
  | flush
  | cursorUp (n : Nat)
  | frameLines (idx : Nat)
  | statusLine
  | sleep (usec : Nat)
deriving DecidableEq

/-- Inner `for` loop of `render_animated` over the frame indices: each
iteration first reads the cancellation flag and breaks when it is
cleared; otherwise it moves the cursor up (except before the very first
frame ever displayed), prints the frame's lines, optionally the status
line, flushes, and sleeps.  Returns the events, the next read counter,
and the `first_iteration` flag. -/
def animInner (running : Nat → Bool) (silent : Bool) (frameHeight usleepDur : Nat) :
    List Nat → Nat → Bool → List TermEvent × Nat × Bool
  | [], k, first => ([], k, first)
  | i :: rest, k, first =>
      if running k then
        let evs :=
          (if first then [] else [TermEvent.cursorUp (frameHeight + if silent then 0 else 1)]) ++
            [TermEvent.frameLines i] ++
            (if silent then [] else [TermEvent.statusLine]) ++
            [TermEvent.flush, TermEvent.sleep usleepDur]
        let r := animInner running silent frameHeight usleepDur rest (k + 1) false
        (evs ++ r.1, r.2.1, r.2.2)
      else ([], k + 1, first)

/-- Outer `while (*running)` loop of `render_animated`, with fuel
bounding the number of outer iterations: `none` means the loop was not
observed to terminate within the fuel. -/
def animOuter (running : Nat → Bool) (silent : Bool) (frameHeight usleepDur : Nat)
    (idxs : List Nat) : Nat → Nat → Bool → Option (List TermEvent)
  | 0, _, _ => none
  | fuel + 1, k, first =>
      if running k then
        let r := animInner running silent frameHeight usleepDur idxs (k + 1) first
        (animOuter running silent frameHeight usleepDur idxs fuel r.2.1 r.2.2).map
          fun evs => r.1 ++ evs
      else some []

/-- Embedding of `render_animated` (core/pipeline.c) as its terminal
event trace: after validating the frame count it hides the cursor,
disables echo, prints a newline, runs the animation loop until a flag
read observes cancellation, then shows the cursor, re-enables echo
(passing back the token from `terminal_disable_echo`), resets the
attributes, and prints a final newline. -/
def render_animated (running : Nat → Bool) (frame_count : Nat) (silent : Bool)
    (fps : Nat) (frameHeight : Nat) (fuel : Nat) : Option (List TermEvent) :=
  if frame_count = 0 then none
  else
    let usleep_duration := 1000000 / fps
    match animOuter running silent frameHeight usleep_duration
        (List.range frame_count) fuel 0 true with
    | none => none
    | some loopEvs =>
        some ([TermEvent.cursorHide, TermEvent.disableEcho, TermEvent.newline] ++
          loopEvs ++
          [TermEvent.cursorShow, TermEvent.enableEcho, TermEvent.reset, TermEvent.newline])

/-- Terminal state affected by the cleanup actions: cursor visibility
and input echo. -/
structure TermState where
  cursorVisible : Bool
  echoOn : Bool
deriving DecidableEq

/-- Effect of one terminal event on cursor visibility and echo. -/
def applyEvent (s : TermState) : TermEvent → TermState
  | TermEvent.cursorHide => { s with cursorVisible := false }
  | TermEvent.cursorShow => { s with cursorVisible := true }
  | TermEvent.disableEcho => { s with echoOn := false }
  | TermEvent.enableEcho => { s with echoOn := true }
  | _ => s

/-! Concrete inputs used in counterexamples and witnesses. -/

/-- A 1249 × 2 canvas of fully opaque white pixels.  It satisfies every
canvas invariant of `image_create`, yet each of its cells costs
19 + 22 = 41 escape bytes, so one line needs 41 · 1249 + 5 = 51214
bytes — more than `MAX_LINE_BUFFER_SIZE`. -/
def wideImg : Image :=
  { width := 1249, height := 2, pixels := fun _ => ⟨255, 255, 255, 255⟩ }

/-- A 2 × 2 canvas of fully opaque white pixels. -/
def tinyWhiteImg : Image :=
  { width := 2, height := 2, pixels := fun _ => ⟨255, 255, 255, 255⟩ }

/-- A 2 × 2 canvas of fully transparent pixels. -/
def tinyClearImg : Image :=
  { width := 2, height := 2, pixels := fun _ => ⟨0, 0, 0, 0⟩ }

/-- A 1 × 1 accumulator holding the pixel (255, 0, 0, 1) used to exhibit
the `uint8_t` truncation in the Over blend. -/
def overflowDst : Image :=
  { width := 1, height := 1, pixels := fun _ => ⟨255, 0, 0, 1⟩ }

/-- A frame source of constant pixels (255, 0, 0, 1). -/
def overflowSrc : Nat → Pixel := fun _ => ⟨255, 0, 0, 1⟩

/-- A one-entry GIF colour map whose single colour is (7, 8, 9). -/
def cexColorMap : ColorMap := ⟨1, fun _ => ⟨7, 8, 9⟩⟩

/-- A zeroed 2 × 2 accumulator canvas. -/
def cexGifAcc : Image := { width := 2, height := 2, pixels := fun _ => ⟨0, 0, 0, 0⟩ }

/-- A GIF frame whose 2 × 2 region sits at offset (1, 1) on a 2 × 2
canvas — it exceeds the canvas bounds on both axes. -/
def cexOobGifFrame : GifFrame :=
  { left := 1, top := 1, width := 2, height := 2, raster := fun _ => 0,
    colorMap := cexColorMap, transparentColor := -1, disposalMode := DISPOSE_DO_NOT }

/-- A 1 × 1 accumulator holding the pixel (9, 9, 9, 9). -/
def cexGifAcc1 : Image := { width := 1, height := 1, pixels := fun _ => ⟨9, 9, 9, 9⟩ }

/-- A 1 × 1 GIF frame whose raster holds index 1, outside the one-entry
colour map `cexColorMap`, with no transparent index declared. -/
def cexInvalidIndexRaster : Nat → Nat := fun _ => 1

/-- A full-canvas 1 × 1 GIF frame painting palette entry 0 with
disposal `DISPOSE_DO_NOT`, used in witnesses. -/
def witGifFrame : GifFrame :=
  { left := 0, top := 0, width := 1, height := 1, raster := fun _ => 0,
    colorMap := cexColorMap, transparentColor := -1, disposalMode := DISPOSE_DO_NOT }

/-- A full-canvas 1 × 1 GIF frame with disposal `DISPOSE_PREVIOUS`. -/
def witGifFramePrev : GifFrame :=
  { witGifFrame with disposalMode := DISPOSE_PREVIOUS }

/-- A full-canvas 1 × 1 GIF frame with disposal `DISPOSE_BACKGROUND`. -/
def witGifFrameBg : GifFrame :=
  { witGifFrame with disposalMode := DISPOSE_BACKGROUND }

/-- A full-canvas 1 × 1 APNG frame of opaque red pixels with disposal
`PNG_DISPOSE_OP_NONE` and blend `PNG_BLEND_OP_SOURCE`. -/
def witApngFrame : ApngFrame :=
  { width := 1, height := 1, x_offset := 0, y_offset := 0,
    dispose_op := PNG_DISPOSE_OP_NONE, blend_op := PNG_BLEND_OP_SOURCE,
    pixels := fun _ => ⟨255, 0, 0, 255⟩ }

/-- The APNG witness frame with disposal `PNG_DISPOSE_OP_PREVIOUS`. -/
def witApngFramePrev : ApngFrame :=
  { witApngFrame with dispose_op := PNG_DISPOSE_OP_PREVIOUS }

/-- The APNG witness frame with disposal `PNG_DISPOSE_OP_BACKGROUND`. -/
def witApngFrameBg : ApngFrame :=
  { witApngFrame with dispose_op := PNG_DISPOSE_OP_BACKGROUND }

/-- An APNG frame whose 2 × 2 region sits at offset (1, 1) on a 2 × 2
canvas — it exceeds the canvas bounds on both axes. -/
def cexOobApngFrame : ApngFrame :=
  { width := 2, height := 2, x_offset := 1, y_offset := 1,
    dispose_op := PNG_DISPOSE_OP_NONE, blend_op := PNG_BLEND_OP_SOURCE,
    pixels := fun _ => ⟨255, 0, 0, 255⟩ }

/-- Canvas invariants guaranteed by `image_create` for every canvas
handed to the renderer (spec §3, `image.h` limits). -/
def canvasInvariants (img : Image) : Prop :=
  0 < img.width ∧ 0 < img.height ∧ img.width ≤ IMAGE_MAX_DIMENSION ∧
    img.height ≤ IMAGE_MAX_DIMENSION ∧ img.width * img.height ≤ IMAGE_MAX_PIXELS

/-- All channel bytes of the image are `uint8_t` values. -/
def byteBounded (img : Image) : Prop :=
  ∀ i, (img.pixels i).r ≤ 255 ∧ (img.pixels i).g ≤ 255 ∧ (img.pixels i).b ≤ 255

/-- Dimensions accepted by `image_calculate_size` / `image_create`. -/
def imageDimsOk (w h : Nat) : Prop :=
  0 < w ∧ 0 < h ∧ w ≤ IMAGE_MAX_DIMENSION ∧ h ≤ IMAGE_MAX_DIMENSION ∧
    w * h ≤ IMAGE_MAX_PIXELS

/-- Compositor state on a 1 × 1 canvas holding pixel (9, 9, 9, 9) with
no backup taken yet, used in witnesses. -/
def witState : CompositorState := ⟨cexGifAcc1, none⟩

/-! String byte-length helper lemmas. -/

theorem strBytes_append (s t : String) : strBytes (s ++ t) = strBytes s + strBytes t := by
  simp [strBytes, String.data_append]

theorem strBytes_empty : strBytes "" = 0 := rfl

theorem foldl_append_init (l : List String) : ∀ a : String,
    List.foldl (fun r s => r ++ s) a l = a ++ List.foldl (fun r s => r ++ s) "" l := by
  induction l with
  | nil => intro a; simp
  | cons h t ih =>
      intro a
      simp only [List.foldl_cons]
      rw [ih (a ++ h), ih ("" ++ h), ← String.append_assoc]
      simp

theorem join_cons (s : String) (l : List String) :
    String.join (s :: l) = s ++ String.join l := by
  simp only [String.join, List.foldl_cons]
  rw [foldl_append_init l ("" ++ s)]
  simp

theorem join_append (l1 l2 : List String) :
    String.join (l1 ++ l2) = String.join l1 ++ String.join l2 := by
  induction l1 with
  | nil => simp [String.join]
  | cons h t ih => simp only [List.cons_append, join_cons, ih, String.append_assoc]

set_option maxRecDepth 4000 in
theorem digitBytes_le : ∀ v : Nat, v < 256 → strBytes (toString v) ≤ 3 := by decide

theorem bgEscape_bytes_le (p : Pixel) (hr : p.r ≤ 255) (hg : p.g ≤ 255) (hb : p.b ≤ 255) :
    strBytes (bgEscape p) ≤ 19 := by
  unfold bgEscape
  split
  · decide
  · unfold ansiBgRgb
    simp only [strBytes_append]
    have h1 := digitBytes_le p.r (by omega)
    have h2 := digitBytes_le p.g (by omega)
    have h3 := digitBytes_le p.b (by omega)
    have c1 : strBytes "\x1b[48;2;" = 7 := by decide
    have c2 : strBytes ";" = 1 := by decide
    have c3 : strBytes "m" = 1 := by decide
    omega

theorem fgEscape_bytes_le (p : Pixel) (hr : p.r ≤ 255) (hg : p.g ≤ 255) (hb : p.b ≤ 255) :
    strBytes (fgEscape p) ≤ 22 := by
  unfold fgEscape
  split
  · decide
  · unfold ansiFgRgbHalfblock
    simp only [strBytes_append]
    have h1 := digitBytes_le p.r (by omega)
    have h2 := digitBytes_le p.g (by omega)
    have h3 := digitBytes_le p.b (by omega)
    have c1 : strBytes "\x1b[38;2;" = 7 := by decide
    have c2 : strBytes ";" = 1 := by decide
    have c3 : strBytes "m▄" = 4 := by decide
    omega

theorem fgEscape_bytes_pos (p : Pixel) : 1 ≤ strBytes (fgEscape p) := by
  unfold fgEscape
  split
  · decide
  · unfold ansiFgRgbHalfblock
    simp only [strBytes_append]
    have c1 : strBytes "\x1b[38;2;" = 7 := by decide
    omega

theorem cellsString_zero (img : Image) (y : Nat) : cellsString img y 0 = "" := rfl

theorem cellsString_succ (img : Image) (y n : Nat) :
    cellsString img y (n + 1) = cellsString img y n ++ cellString img y n := by
  unfold cellsString
  rw [List.range_succ, List.map_append, join_append]
  simp [String.join, join_cons]

theorem cellString_bytes (img : Image) (y x : Nat) :
    strBytes (cellString img y x) =
      strBytes (bgEscape (img.pixels (y * img.width + x))) +
        strBytes (fgEscape (img.pixels ((y + 1) * img.width + x))) := by
  simp [cellString, strBytes_append]

theorem cellsString_bytes_le (img : Image) (hbb : byteBounded img) (y : Nat) :
    ∀ n, strBytes (cellsString img y n) ≤ 41 * n := by
  intro n
  induction n with
  | zero => simp [cellsString_zero, strBytes_empty]
  | succ n ih =>
      rw [cellsString_succ, strBytes_append, cellString_bytes]
      have h1 := hbb (y * img.width + n)
      have h2 := hbb ((y + 1) * img.width + n)
      have b1 := bgEscape_bytes_le (img.pixels (y * img.width + n)) h1.1 h1.2.1 h1.2.2
      have b2 := fgEscape_bytes_le (img.pixels ((y + 1) * img.width + n)) h2.1 h2.2.1 h2.2.2
      omega

/-! Generic lemmas about folds over `List.range` that write image
pixels, used to reason about the region loops of the compositors. -/

theorem foldl_range_succ {α : Type} (g : α → Nat → α) (a : α) (n : Nat) :
    (List.range (n + 1)).foldl g a = g ((List.range n).foldl g a) n := by
  rw [List.range_succ, List.foldl_append]
  rfl

theorem natFold_dims (g : Image → Nat → Image) :
    ∀ n : Nat, (∀ b x, x < n → (g b x).width = b.width ∧ (g b x).height = b.height) →
      ∀ a : Image, ((List.range n).foldl g a).width = a.width ∧
        ((List.range n).foldl g a).height = a.height := by
  intro n
  induction n with
  | zero => intro _ a; simp
  | succ n ih =>
      intro H a
      rw [foldl_range_succ]
      have ihh := ih (fun b x hx => H b x (by omega)) a
      have hd := H ((List.range n).foldl g a) n (by omega)
      exact ⟨hd.1.trans ihh.1, hd.2.trans ihh.2⟩

theorem natFold_untouched (g : Image → Nat → Image) (q W H0 : Nat) :
    ∀ n : Nat,
      (∀ b x, x < n → (g b x).width = b.width ∧ (g b x).height = b.height) →
      (∀ b, b.width = W → b.height = H0 → ∀ x, x < n → (g b x).pixels q = b.pixels q) →
      ∀ a : Image, a.width = W → a.height = H0 →
        ((List.range n).foldl g a).pixels q = a.pixels q := by
  intro n
  induction n with
  | zero => intro _ _ a _ _; simp
  | succ n ih =>
      intro Hdim H a haw hah
      rw [foldl_range_succ]
      have hdims := natFold_dims g n (fun b x hx => Hdim b x (by omega)) a
      have hrec := ih (fun b x hx => Hdim b x (by omega))
        (fun b hbw hbh x hx => H b hbw hbh x (by omega)) a haw hah
      rw [H ((List.range n).foldl g a) (hdims.1.trans haw) (hdims.2.trans hah) n (by omega)]
      exact hrec

theorem natFold_write_once (g : Image → Nat → Image) (q t W H0 : Nat) (F : Pixel → Pixel) :
    ∀ n : Nat, t < n →
      (∀ b x, x < n → (g b x).width = b.width ∧ (g b x).height = b.height) →
      (∀ b, b.width = W → b.height = H0 → ∀ x, x < n → x ≠ t →
        (g b x).pixels q = b.pixels q) →
      (∀ b, b.width = W → b.height = H0 → (g b t).pixels q = F (b.pixels q)) →
      ∀ a : Image, a.width = W → a.height = H0 →
        ((List.range n).foldl g a).pixels q = F (a.pixels q) := by
  intro n
  induction n with
  | zero => intro ht; omega
  | succ n ih =>
      intro ht Hdim Hother Htgt a haw hah
      rw [foldl_range_succ]
      have hdims := natFold_dims g n (fun b x hx => Hdim b x (by omega)) a
      rcases Nat.lt_or_ge t n with h | h
      · have hrec := ih h (fun b x hx => Hdim b x (by omega))
          (fun b hbw hbh x hx hne => Hother b hbw hbh x (by omega) hne) Htgt a haw hah
        rw [Hother ((List.range n).foldl g a) (hdims.1.trans haw) (hdims.2.trans hah) n
          (by omega) (by omega)]
        exact hrec
      · have htn : t = n := by omega
        have hpre := natFold_untouched g q W H0 n (fun b x hx => Hdim b x (by omega))
          (fun b hbw hbh x hx => Hother b hbw hbh x (by omega) (by omega)) a haw hah
        rw [htn] at Htgt
        rw [Htgt ((List.range n).foldl g a) (hdims.1.trans haw) (hdims.2.trans hah), hpre]

theorem rowcol_ne (cw r1 c1 r2 c2 : Nat) (h1 : c1 < cw) (h2 : c2 < cw) (hr : r1 ≠ r2) :
    r1 * cw + c1 ≠ r2 * cw + c2 := by
  intro he
  rcases Nat.lt_or_ge r1 r2 with h | h
  · have hc : (r1 + 1) * cw ≤ r2 * cw := Nat.mul_le_mul_right cw h
    have : r1 * cw + c1 < r2 * cw + c2 := by
      calc r1 * cw + c1 < r1 * cw + cw := by omega
        _ = (r1 + 1) * cw := by ring
        _ ≤ r2 * cw := hc
        _ ≤ r2 * cw + c2 := Nat.le_add_right _ _
    omega
  · have hr2 : r2 < r1 := by omega
    have hc : (r2 + 1) * cw ≤ r1 * cw := Nat.mul_le_mul_right cw hr2
    have : r2 * cw + c2 < r1 * cw + c1 := by
      calc r2 * cw + c2 < r2 * cw + cw := by omega
        _ = (r2 + 1) * cw := by ring
        _ ≤ r1 * cw := hc
        _ ≤ r1 * cw + c1 := Nat.le_add_right _ _
    omega

theorem regionFold_dims (fw fh : Nat) (step : Image → Nat → Nat → Image)
    (Hdim : ∀ b x y, x < fw → y < fh →
      (step b x y).width = b.width ∧ (step b x y).height = b.height) (acc : Image) :
    (regionFold fw fh step acc).width = acc.width ∧
      (regionFold fw fh step acc).height = acc.height := by
  unfold regionFold
  exact natFold_dims _ fh
    (fun b y hy => natFold_dims _ fw (fun b2 x hx => Hdim b2 x y hx hy) b) acc

theorem regionFold_untouched (fw fh : Nat) (step : Image → Nat → Nat → Image)
    (q W H0 : Nat)
    (Hdim : ∀ b x y, x < fw → y < fh →
      (step b x y).width = b.width ∧ (step b x y).height = b.height)
    (H : ∀ b, b.width = W → b.height = H0 → ∀ x y, x < fw → y < fh →
      (step b x y).pixels q = b.pixels q)
    (acc : Image) (haw : acc.width = W) (hah : acc.height = H0) :
    (regionFold fw fh step acc).pixels q = acc.pixels q := by
  unfold regionFold
  exact natFold_untouched _ q W H0 fh
    (fun b y hy => natFold_dims _ fw (fun b2 x hx => Hdim b2 x y hx hy) b)
    (fun b hbw hbh y hy => natFold_untouched _ q W H0 fw
      (fun b2 x hx => Hdim b2 x y hx hy)
      (fun b2 hb2w hb2h x hx => H b2 hb2w hb2h x y hx hy) b hbw hbh)
    acc haw hah

theorem regionFold_write_once (fw fh : Nat) (step : Image → Nat → Nat → Image)
    (q tx ty W H0 : Nat) (F : Pixel → Pixel) (htx : tx < fw) (hty : ty < fh)
    (Hdim : ∀ b x y, x < fw → y < fh →
      (step b x y).width = b.width ∧ (step b x y).height = b.height)
    (Hother : ∀ b, b.width = W → b.height = H0 → ∀ x y, x < fw → y < fh →
      ¬(x = tx ∧ y = ty) → (step b x y).pixels q = b.pixels q)
    (Htgt : ∀ b, b.width = W → b.height = H0 → (step b tx ty).pixels q = F (b.pixels q))
    (acc : Image) (haw : acc.width = W) (hah : acc.height = H0) :
    (regionFold fw fh step acc).pixels q = F (acc.pixels q) := by
  unfold regionFold
  refine natFold_write_once _ q ty W H0 F fh hty
    (fun b y hy => natFold_dims _ fw (fun b2 x hx => Hdim b2 x y hx hy) b)
    (fun b hbw hbh y hy hyne => natFold_untouched _ q W H0 fw
      (fun b2 x hx => Hdim b2 x y hx hy)
      (fun b2 hb2w hb2h x hx => Hother b2 hb2w hb2h x y hx hy (by tauto)) b hbw hbh)
    (fun b hbw hbh => natFold_write_once _ q tx W H0 F fw htx
      (fun b2 x hx => Hdim b2 x ty hx hty)
      (fun b2 hb2w hb2h x hx hne => Hother b2 hb2w hb2h x ty hx hty (by tauto))
      (fun b2 hb2w hb2h => Htgt b2 hb2w hb2h) b hbw hbh)
    acc haw hah

/-! Basic pixel-write lemmas. -/

theorem setIdx_pixels (img : Image) (idx : Nat) (p : Pixel) (q : Nat) :
    (img.setIdx idx p).pixels q = if q = idx then p else img.pixels q := rfl

theorem set_pixel_dims (img : Image) (x y r g b a : Nat) :
    (image_set_pixel img x y r g b a).width = img.width ∧
      (image_set_pixel img x y r g b a).height = img.height := by
  unfold image_set_pixel
  split <;> exact ⟨rfl, rfl⟩

theorem set_pixel_pixels_ne (img : Image) (x y r g b a q : Nat)
    (h : q ≠ y * img.width + x) :
    (image_set_pixel img x y r g b a).pixels q = img.pixels q := by
  unfold image_set_pixel
  split
  · rw [setIdx_pixels, if_neg h]
  · rfl

theorem set_pixel_pixels_eq (img : Image) (x y r g b a : Nat)
    (hx : x < img.width) (hy : y < img.height) :
    (image_set_pixel img x y r g b a).pixels (y * img.width + x) = ⟨r, g, b, a⟩ := by
  unfold image_set_pixel
  rw [if_pos ⟨hx, hy⟩, setIdx_pixels, if_pos rfl]

/-! Pointwise characterization of `apng_composite_frame`. -/

theorem apng_composite_dims (acc : Image) (fp : Nat → Pixel)
    (x_off y_off fw fh cw ch blend : Nat) :
    (apng_composite_frame acc fp x_off y_off fw fh cw ch blend).width = acc.width ∧
      (apng_composite_frame acc fp x_off y_off fw fh cw ch blend).height = acc.height := by
  unfold apng_composite_frame
  exact regionFold_dims _ _ _ (fun b x y hx hy => by dsimp only; split <;> exact ⟨rfl, rfl⟩) acc

theorem apng_composite_pixel (acc : Image) (fp : Nat → Pixel)
    (x_off y_off fw fh cw ch blend tx ty : Nat)
    (htx : tx < fw) (hty : ty < fh) (hcx : x_off + tx < cw) (hcy : y_off + ty < ch) :
    (apng_composite_frame acc fp x_off y_off fw fh cw ch blend).pixels
        ((y_off + ty) * cw + (x_off + tx)) =
      compositePixelPng blend (fp (ty * fw + tx))
        (acc.pixels ((y_off + ty) * cw + (x_off + tx))) := by
  unfold apng_composite_frame
  refine regionFold_write_once fw fh _ ((y_off + ty) * cw + (x_off + tx)) tx ty
    acc.width acc.height
    (fun dpx => compositePixelPng blend (fp (ty * fw + tx)) dpx) htx hty
    (fun b x y hx hy => by dsimp only; split <;> exact ⟨rfl, rfl⟩)
    ?hother ?htgt acc rfl rfl
  case hother =>
    intro b hbw hbh x y hx hy hne
    dsimp only
    split
    · rfl
    · rename_i hinb
      rw [setIdx_pixels]
      have hx2 : x_off + x < cw := by omega
      have hy2 : y_off + y < ch := by omega
      rcases eq_or_ne y ty with hyy | hyy
      · subst hyy
        rw [if_neg]
        omega
      · rw [if_neg]
        have := rowcol_ne cw (y_off + ty) (x_off + tx) (y_off + y) (x_off + x) hcx hx2
          (by omega)
        exact this
  case htgt =>
    intro b hbw hbh
    dsimp only
    rw [if_neg (by omega : ¬(cw ≤ x_off + tx ∨ ch ≤ y_off + ty))]
    rw [setIdx_pixels, if_pos rfl]

/-! Pointwise characterization of `frame_composition` (GIF). -/

theorem frame_composition_dims (acc : Image) (raster : Nat → Nat) (cm : ColorMap)
    (tc : Int) (left top w h cw ch : Nat) :
    (frame_composition acc raster cm tc left top w h cw ch).width = acc.width ∧
      (frame_composition acc raster cm tc left top w h cw ch).height = acc.height := by
  unfold frame_composition
  refine regionFold_dims _ _ _ (fun b x y hx hy => ?_) acc
  dsimp only
  split
  · exact ⟨rfl, rfl⟩
  · split
    · split
      · exact set_pixel_dims _ _ _ _ _ _ _
      · exact ⟨rfl, rfl⟩
    · exact ⟨rfl, rfl⟩

/-- Value written by the GIF composition step at one region position:
skip when the raster index equals the transparent index, otherwise
overwrite when the looked-up alpha is at least 128, else skip. -/
def gifPixelResult (raster : Nat → Nat) (cm : ColorMap) (tc : Int) (w tx ty : Nat)
    (dpx : Pixel) : Pixel :=
  if ((raster (ty * w + tx) : Nat) : Int) = tc then dpx
  else
    let rgba := gif_index_to_rgba cm ((raster (ty * w + tx) : Nat) : Int) tc
    if 128 ≤ rgba.a then rgba else dpx

theorem frame_composition_pixel (acc : Image) (raster : Nat → Nat) (cm : ColorMap)
    (tc : Int) (left top w h cw ch tx ty : Nat)
    (hbw : acc.width = cw) (hbh : acc.height = ch)
    (htx : tx < w) (hty : ty < h) (hcx : left + tx < cw) (hcy : top + ty < ch) :
    (frame_composition acc raster cm tc left top w h cw ch).pixels
        ((top + ty) * cw + (left + tx)) =
      gifPixelResult raster cm tc w tx ty
        (acc.pixels ((top + ty) * cw + (left + tx))) := by
  unfold frame_composition
  refine regionFold_write_once w h _ ((top + ty) * cw + (left + tx)) tx ty cw ch
    (gifPixelResult raster cm tc w tx ty) htx hty
    (fun b x y hx hy => by
      dsimp only
      split
      · exact ⟨rfl, rfl⟩
      · split
        · split
          · exact set_pixel_dims _ _ _ _ _ _ _
          · exact ⟨rfl, rfl⟩
        · exact ⟨rfl, rfl⟩)
    ?hother ?htgt acc hbw hbh
  case hother =>
    intro b hbw2 hbh2 x y hx hy hne
    dsimp only
    split
    · rfl
    · split
      · split
        · rename_i hinb
          apply set_pixel_pixels_ne
          rw [hbw2]
          rcases eq_or_ne y ty with hyy | hyy
          · subst hyy
            omega
          · exact rowcol_ne cw (top + ty) (left + tx) (top + y) (left + x) hcx hinb.1
              (by omega)
        · rfl
      · rfl
  case htgt =>
    intro b hbw2 hbh2
    dsimp only
    unfold gifPixelResult
    rcases eq_or_ne ((raster (ty * w + tx) : Nat) : Int) tc with hc | hc
    · rw [if_pos hc, if_pos hc]
    · rw [if_neg hc, if_neg hc]
      dsimp only
      by_cases ha : 128 ≤ (gif_index_to_rgba cm ((raster (ty * w + tx) : Nat) : Int) tc).a
      · rw [if_pos ha, if_pos ha, if_pos ⟨by omega, by omega⟩]
        have hq : (top + ty) * cw + (left + tx) = (top + ty) * b.width + (left + tx) := by
          rw [hbw2]
        rw [hq]
        exact set_pixel_pixels_eq b (left + tx) (top + ty) _ _ _ _ (by omega) (by omega)
      · rw [if_neg ha, if_neg ha]

/-! Pointwise characterization of the disposal-`Background` clear. -/

theorem clearRegion_dims (acc : Image) (left top w h cw ch : Nat) :
    (clearRegionToTransparent acc left top w h cw ch).width = acc.width ∧
      (clearRegionToTransparent acc left top w h cw ch).height = acc.height := by
  unfold clearRegionToTransparent
  refine regionFold_dims _ _ _ (fun b x y hx hy => ?_) acc
  dsimp only
  split
  · exact set_pixel_dims _ _ _ _ _ _ _
  · exact ⟨rfl, rfl⟩

theorem clearRegion_pixel_in (acc : Image) (left top w h cw ch : Nat)
    (hbw : acc.width = cw) (hbh : acc.height = ch) (tx ty : Nat)
    (htx : tx < w) (hty : ty < h) (hcx : left + tx < cw) (hcy : top + ty < ch) :
    (clearRegionToTransparent acc left top w h cw ch).pixels
        ((top + ty) * cw + (left + tx)) = ⟨0, 0, 0, 0⟩ := by
  unfold clearRegionToTransparent
  refine regionFold_write_once w h _ ((top + ty) * cw + (left + tx)) tx ty cw ch
    (fun _ => (⟨0, 0, 0, 0⟩ : Pixel)) htx hty
    (fun b x y hx hy => by
      dsimp only
      split
      · exact set_pixel_dims _ _ _ _ _ _ _
      · exact ⟨rfl, rfl⟩)
    ?hother ?htgt acc hbw hbh
  case hother =>
    intro b hbw2 hbh2 x y hx hy hne
    dsimp only
    split
    · rename_i hinb
      apply set_pixel_pixels_ne
      rw [hbw2]
      rcases eq_or_ne y ty with hyy | hyy
      · subst hyy
        omega
      · exact rowcol_ne cw (top + ty) (left + tx) (top + y) (left + x) hcx hinb.1
          (by omega)
    · rfl
  case htgt =>
    intro b hbw2 hbh2
    dsimp only
    rw [if_pos ⟨by omega, by omega⟩]
    have hq : (top + ty) * cw + (left + tx) = (top + ty) * b.width + (left + tx) := by
      rw [hbw2]
    rw [hq]
    exact set_pixel_pixels_eq b (left + tx) (top + ty) _ _ _ _ (by omega) (by omega)

theorem clearRegion_pixel_out (acc : Image) (left top w h cw ch : Nat)
    (hbw : acc.width = cw) (hbh : acc.height = ch) (qx qy : Nat)
    (hqx : qx < cw) (hqy : qy < ch)
    (hout : ¬(left ≤ qx ∧ qx < left + w ∧ top ≤ qy ∧ qy < top + h)) :
    (clearRegionToTransparent acc left top w h cw ch).pixels (qy * cw + qx) =
      acc.pixels (qy * cw + qx) := by
  unfold clearRegionToTransparent
  refine regionFold_untouched w h _ (qy * cw + qx) cw ch
    (fun b x y hx hy => by
      dsimp only
      split
      · exact set_pixel_dims _ _ _ _ _ _ _
      · exact ⟨rfl, rfl⟩)
    (fun b hbw2 hbh2 x y hx hy => ?_) acc hbw hbh
  dsimp only
  split
  · rename_i hinb
    apply set_pixel_pixels_ne
    rw [hbw2]
    rcases eq_or_ne (top + y) qy with hyy | hyy
    · rw [hyy]
      omega
    · exact fun he => rowcol_ne cw qy qx (top + y) (left + x) hqx hinb.1
        (by omega) he
  · rfl

/-! Characterization of `generate_line_ansi`: the per-column fold either
fails on buffer exhaustion or produces exactly the concatenation of the
per-column escape pairs. -/

theorem resetNl_bytes : strBytes (ANSI_RESET ++ "\n") = 5 := by decide

theorem lineFold_success (img : Image) (y : Nat) (hyh : y + 1 < img.height) :
    ∀ n, n ≤ img.width → strBytes (cellsString img y n) < MAX_LINE_BUFFER_SIZE →
      (List.range n).foldl (lineCellStep img y) (some ("", MAX_LINE_BUFFER_SIZE)) =
        some (cellsString img y n,
          MAX_LINE_BUFFER_SIZE - strBytes (cellsString img y n)) := by
  intro n
  induction n with
  | zero => intro _ _; simp [cellsString_zero, strBytes_empty]
  | succ n ih =>
      intro hn1 hfit
      have hmono : strBytes (cellsString img y (n + 1)) =
          strBytes (cellsString img y n) +
            strBytes (bgEscape (img.pixels (y * img.width + n))) +
            strBytes (fgEscape (img.pixels ((y + 1) * img.width + n))) := by
        rw [cellsString_succ, strBytes_append, cellString_bytes]
        omega
      have hfg1 := fgEscape_bytes_pos (img.pixels ((y + 1) * img.width + n))
      have hfitn : strBytes (cellsString img y n) < MAX_LINE_BUFFER_SIZE := by omega
      rw [foldl_range_succ, ih (by omega) hfitn]
      unfold lineCellStep
      rw [Option.some_bind]
      have hg1 : image_get_pixel img n y = some (img.pixels (y * img.width + n)) := by
        unfold image_get_pixel
        rw [if_pos ⟨by omega, by omega⟩]
      have hg2 : image_get_pixel img n (y + 1) =
          some (img.pixels ((y + 1) * img.width + n)) := by
        unfold image_get_pixel
        rw [if_pos ⟨by omega, by omega⟩]
      rw [hg1, hg2]
      unfold snwrite
      dsimp only
      rw [if_neg (by omega)]
      rw [Option.some_bind]
      dsimp only
      rw [if_neg (by omega)]
      have hstr : cellsString img y (n + 1) =
          (cellsString img y n ++ bgEscape (img.pixels (y * img.width + n))) ++
            fgEscape (img.pixels ((y + 1) * img.width + n)) := by
        rw [cellsString_succ]
        unfold cellString
        rw [String.append_assoc]
      rw [hstr]
      simp only [strBytes_append, Option.some.injEq, Prod.mk.injEq, true_and]
      omega

theorem lineFold_inv (img : Image) (y : Nat) :
    ∀ n s r,
      (List.range n).foldl (lineCellStep img y) (some ("", MAX_LINE_BUFFER_SIZE)) =
        some (s, r) →
      s = cellsString img y n ∧ strBytes s + r = MAX_LINE_BUFFER_SIZE ∧ 1 ≤ r := by
  intro n
  induction n with
  | zero =>
      intro s r h
      simp only [List.range_zero, List.foldl_nil, Option.some.injEq, Prod.mk.injEq] at h
      refine ⟨h.1.symm, ?_, ?_⟩ <;>
        simp [← h.1, ← h.2, cellsString_zero, strBytes_empty, MAX_LINE_BUFFER_SIZE]
  | succ n ih =>
      intro s r h
      rw [foldl_range_succ] at h
      rcases hprev : (List.range n).foldl (lineCellStep img y)
          (some ("", MAX_LINE_BUFFER_SIZE)) with _ | st
      · rw [hprev] at h
        simp [lineCellStep] at h
      · rw [hprev] at h
        obtain ⟨s0, r0⟩ := st
        obtain ⟨ihs, ihb, ihr⟩ := ih s0 r0 hprev
        unfold lineCellStep at h
        rw [Option.some_bind] at h
        rcases hg1 : image_get_pixel img n y with _ | top
        · rw [hg1] at h
          simp at h
        · rcases hg2 : image_get_pixel img n (y + 1) with _ | bot
          · rw [hg1, hg2] at h
            simp at h
          · rw [hg1, hg2] at h
            have htop : top = img.pixels (y * img.width + n) := by
              unfold image_get_pixel at hg1
              split at hg1
              · exact (Option.some.injEq _ _ ▸ hg1).symm
              · cases hg1
            have hbot : bot = img.pixels ((y + 1) * img.width + n) := by
              unfold image_get_pixel at hg2
              split at hg2
              · exact (Option.some.injEq _ _ ▸ hg2).symm
              · cases hg2
            unfold snwrite at h
            dsimp only at h
            split at h
            · simp at h
            · rw [Option.some_bind] at h
              dsimp only at h
              split at h
              · cases h
              · rename_i hc1 hc2
                simp only [Option.some.injEq, Prod.mk.injEq] at h
                obtain ⟨hs, hr⟩ := h
                subst ihs
                constructor
                · rw [← hs, cellsString_succ]
                  unfold cellString
                  rw [← htop, ← hbot, String.append_assoc]
                · rw [← hs, ← hr]
                  simp only [strBytes_append]
                  omega

theorem generate_line_some (img : Image) (y : Nat) (s : String)
    (h : generate_line_ansi img y = some s) :
    s = fullLine img y ∧ strBytes (fullLine img y) < MAX_LINE_BUFFER_SIZE := by
  unfold generate_line_ansi at h
  split at h
  · cases h
  · rcases hf : (List.range img.width).foldl (lineCellStep img y)
        (some ("", MAX_LINE_BUFFER_SIZE)) with _ | st
    · rw [hf] at h
      cases h
    · rw [hf] at h
      obtain ⟨s0, r0⟩ := st
      obtain ⟨hs0, hb0, hr0⟩ := lineFold_inv img y img.width s0 r0 hf
      rw [Option.some_bind] at h
      unfold snwrite at h
      dsimp only at h
      rw [resetNl_bytes] at h
      split at h
      · cases h
      · rename_i hc
        simp only [Option.map_some', Option.some.injEq] at h
        have hsv : s = s0 ++ (ANSI_RESET ++ "\n") := h.symm
        have hfl : fullLine img y = s0 ++ (ANSI_RESET ++ "\n") := by
          unfold fullLine
          rw [hs0]
        constructor
        · rw [hsv, hfl]
        · rw [hfl, strBytes_append, resetNl_bytes]
          omega

theorem generate_line_succeeds (img : Image) (y : Nat) (hy : y % 2 = 0)
    (hyh : y + 1 < img.height)
    (hfit : strBytes (fullLine img y) < MAX_LINE_BUFFER_SIZE) :
    generate_line_ansi img y = some (fullLine img y) := by
  have hm : heightMinusOneU32 img.height = img.height - 1 := by
    unfold heightMinusOneU32
    rw [if_neg (by omega)]
  have hfitc : strBytes (cellsString img y img.width) + 5 < MAX_LINE_BUFFER_SIZE := by
    have : strBytes (fullLine img y) =
        strBytes (cellsString img y img.width) + 5 := by
      unfold fullLine
      rw [strBytes_append, resetNl_bytes]
    omega
  unfold generate_line_ansi
  rw [if_neg (by simp only [hm]; omega)]
  rw [lineFold_success img y hyh img.width le_rfl (by omega)]
  rw [Option.some_bind]
  unfold snwrite
  dsimp only
  rw [resetNl_bytes, if_neg (by omega)]
  rfl

/-! Frame-level lemmas for `generate_frame_ansi`. -/

theorem mapLines_all_some (img : Image) :
    ∀ l : List Nat, (∀ y ∈ l, generate_line_ansi img y = some (fullLine img y)) →
      mapLines img l = some (l.map (fullLine img)) := by
  intro l
  induction l with
  | nil => intro _; rfl
  | cons y rest ih =>
      intro H
      unfold mapLines
      rw [H y (List.mem_cons_self y rest), Option.some_bind,
        ih (fun z hz => H z (List.mem_cons_of_mem y hz)), Option.map_some']
      rfl

theorem generate_frame_succeeds (img : Image) (hbb : byteBounded img)
    (h2 : 2 ≤ img.height) (hw : img.width ≤ 1000) :
    generate_frame_ansi img =
      (some (((List.range (img.height / 2)).map fun i => 2 * i).map (fullLine img)),
        some (img.height / 2)) := by
  have hlines : ∀ y ∈ (List.range (img.height / 2)).map fun i => 2 * i,
      generate_line_ansi img y = some (fullLine img y) := by
    intro y hy
    obtain ⟨i, hi, rfl⟩ := List.mem_map.mp hy
    have hi2 := List.mem_range.mp hi
    have hyh : 2 * i + 1 < img.height := by omega
    refine generate_line_succeeds img (2 * i) (by omega) hyh ?_
    have hc := cellsString_bytes_le img hbb (2 * i) img.width
    have : strBytes (fullLine img (2 * i)) =
        strBytes (cellsString img (2 * i) img.width) + 5 := by
      unfold fullLine
      rw [strBytes_append, resetNl_bytes]
    unfold MAX_LINE_BUFFER_SIZE
    omega
  unfold generate_frame_ansi
  dsimp only
  rw [if_neg (by omega), mapLines_all_some img _ hlines]

theorem generate_frame_short (img : Image) (h : img.height < 2) :
    generate_frame_ansi img = (none, some 0) := by
  unfold generate_frame_ansi
  dsimp only
  rw [if_pos (by omega)]

/-! The wide all-opaque canvas `wideImg` overflows the line buffer. -/

theorem wideImg_cell_bytes (y x : Nat) : strBytes (cellString wideImg y x) = 41 := by
  show strBytes (bgEscape ⟨255, 255, 255, 255⟩ ++ fgEscape ⟨255, 255, 255, 255⟩) = 41
  decide

theorem wideImg_cells_bytes : ∀ n, strBytes (cellsString wideImg 0 n) = 41 * n := by
  intro n
  induction n with
  | zero => simp [cellsString_zero, strBytes_empty]
  | succ n ih =>
      rw [cellsString_succ, strBytes_append, ih, wideImg_cell_bytes]
      omega

theorem wideImg_fullLine_bytes : strBytes (fullLine wideImg 0) = 51214 := by
  unfold fullLine
  rw [strBytes_append, resetNl_bytes]
  have hw : wideImg.width = 1249 := rfl
  rw [hw, wideImg_cells_bytes 1249]

theorem wideImg_line_none : generate_line_ansi wideImg 0 = none := by
  rcases h : generate_line_ansi wideImg 0 with _ | s
  · rfl
  · exfalso
    have hb := (generate_line_some wideImg 0 s h).2
    rw [wideImg_fullLine_bytes] at hb
    exact absurd hb (by norm_num [MAX_LINE_BUFFER_SIZE])

theorem generate_frame_none_of_line_none (img : Image) (h2 : img.height / 2 = 1)
    (hline : generate_line_ansi img 0 = none) :
    generate_frame_ansi img = (none, none) := by
  unfold generate_frame_ansi
  dsimp only
  rw [h2]
  rw [if_neg one_ne_zero]
  have hl : (List.range 1).map (fun i => 2 * i) = [0] := rfl
  rw [hl]
  unfold mapLines
  rw [hline, Option.none_bind]

theorem wideImg_frame_none : generate_frame_ansi wideImg = (none, none) :=
  generate_frame_none_of_line_none wideImg rfl wideImg_line_none

/-! Decode-loop helper lemmas. -/

theorem idx_lt_canvas (cw ch qx qy : Nat) (hqx : qx < cw) (hqy : qy < ch) :
    qy * cw + qx < cw * ch := by
  have h1 : qy * cw + qx < (qy + 1) * cw := by
    have : (qy + 1) * cw = qy * cw + cw := by ring
    omega
  have h2 : (qy + 1) * cw ≤ ch * cw := Nat.mul_le_mul_right cw (by omega)
  have h3 : ch * cw = cw * ch := Nat.mul_comm ch cw
  omega

theorem image_create_ok (w h : Nat) (hd : imageDimsOk w h) :
    image_create w h =
      some { width := w, height := h, pixels := fun _ => ⟨0, 0, 0, 0⟩ } := by
  obtain ⟨h1, h2, h3, h4, h5⟩ := hd
  unfold image_create image_calculate_size
  rw [if_neg (by omega), if_neg (by omega), if_neg (by omega)]
  rfl

theorem gifRunFrames_length (cw ch : Nat) :
    ∀ (l : List GifFrame) (st : CompositorState),
      (gifRunFrames cw ch st l).2.length = l.length := by
  intro l
  induction l with
  | nil => intro st; rfl
  | cons f rest ih =>
      intro st
      unfold gifRunFrames
      simp only [List.length_cons]
      rw [ih]

theorem pngRunFrames_ok (cw ch : Nat) :
    ∀ (l : List ApngFrame) (st : CompositorState),
      (∀ f ∈ l, f.x_offset + f.width ≤ cw ∧ f.y_offset + f.height ≤ ch) →
      ∃ p, pngRunFrames cw ch st l = some p ∧ p.2.length = l.length := by
  intro l
  induction l with
  | nil => intro st _; exact ⟨_, rfl, rfl⟩
  | cons f rest ih =>
      intro st H
      have hf := H f (List.mem_cons_self f rest)
      have hstep : pngProcessFrame cw ch st f ≠ none := by
        unfold pngProcessFrame
        rw [if_neg (by omega)]
        exact Option.some_ne_none _
      rcases hp : pngProcessFrame cw ch st f with _ | p1
      · exact absurd hp hstep
      · obtain ⟨p2, hrun, hlen⟩ := ih p1.1 (fun g hg => H g (List.mem_cons_of_mem f hg))
        refine ⟨(p2.1, p1.2 :: p2.2), ?_, ?_⟩
        · unfold pngRunFrames
          rw [hp]
          dsimp only
          rw [hrun, Option.map_some']
        · simp only [List.length_cons]
          rw [hlen]

/-! Shape of one compositor step under each disposal mode. -/

theorem gifFrameStep_previous (cw ch : Nat) (st : CompositorState) (f : GifFrame)
    (hdisp : f.disposalMode = DISPOSE_PREVIOUS) :
    gifFrameStep cw ch st f =
      ({ acc := overwriteCanvas cw ch
            (frame_composition st.acc f.raster f.colorMap f.transparentColor f.left f.top
              f.width f.height cw ch) (copyCanvas cw ch st.acc),
         previous := some (copyCanvas cw ch st.acc) },
        copyCanvas cw ch (frame_composition st.acc f.raster f.colorMap f.transparentColor
          f.left f.top f.width f.height cw ch)) := by
  unfold gifFrameStep
  rw [hdisp]
  norm_num [DISPOSE_PREVIOUS, DISPOSE_BACKGROUND]

theorem gifFrameStep_background (cw ch : Nat) (st : CompositorState) (f : GifFrame)
    (hdisp : f.disposalMode = DISPOSE_BACKGROUND) :
    gifFrameStep cw ch st f =
      ({ acc := clearRegionToTransparent
            (frame_composition st.acc f.raster f.colorMap f.transparentColor f.left f.top
              f.width f.height cw ch) f.left f.top f.width f.height cw ch,
         previous := st.previous },
        copyCanvas cw ch (frame_composition st.acc f.raster f.colorMap f.transparentColor
          f.left f.top f.width f.height cw ch)) := by
  unfold gifFrameStep
  rw [hdisp]
  norm_num [DISPOSE_PREVIOUS, DISPOSE_BACKGROUND]

theorem pngProcessFrame_previous (cw ch : Nat) (st : CompositorState) (f : ApngFrame)
    (hdisp : f.dispose_op = PNG_DISPOSE_OP_PREVIOUS)
    (hfit : f.x_offset + f.width ≤ cw ∧ f.y_offset + f.height ≤ ch) :
    pngProcessFrame cw ch st f =
      some (⟨overwriteCanvas cw ch
          (apng_composite_frame st.acc f.pixels f.x_offset f.y_offset f.width f.height
            cw ch f.blend_op) (copyCanvas cw ch st.acc),
          some (copyCanvas cw ch st.acc)⟩,
        copyCanvas cw ch (apng_composite_frame st.acc f.pixels f.x_offset f.y_offset
          f.width f.height cw ch f.blend_op)) := by
  unfold pngProcessFrame
  rw [if_neg (by omega), hdisp]
  norm_num [PNG_DISPOSE_OP_PREVIOUS, PNG_DISPOSE_OP_BACKGROUND]

theorem pngProcessFrame_background (cw ch : Nat) (st : CompositorState) (f : ApngFrame)
    (hdisp : f.dispose_op = PNG_DISPOSE_OP_BACKGROUND)
    (hfit : f.x_offset + f.width ≤ cw ∧ f.y_offset + f.height ≤ ch) :
    pngProcessFrame cw ch st f =
      some (⟨clearRegionToTransparent
          (apng_composite_frame st.acc f.pixels f.x_offset f.y_offset f.width f.height
            cw ch f.blend_op) f.x_offset f.y_offset f.width f.height cw ch,
          st.previous⟩,
        copyCanvas cw ch (apng_composite_frame st.acc f.pixels f.x_offset f.y_offset
          f.width f.height cw ch f.blend_op)) := by
  unfold pngProcessFrame
  rw [if_neg (by omega), hdisp]
  norm_num [PNG_DISPOSE_OP_PREVIOUS, PNG_DISPOSE_OP_BACKGROUND]

/-! Terminal cleanup of the animation player. -/

theorem cleanup_suffix_state (s : TermState) :
    ([TermEvent.cursorShow, TermEvent.enableEcho, TermEvent.reset,
        TermEvent.newline].foldl applyEvent s) = ⟨true, true⟩ := rfl

/-! Case analysis of the per-pixel GIF composition result. -/

theorem gifPixelResult_transparent (raster : Nat → Nat) (cm : ColorMap) (tc : Int)
    (w tx ty : Nat) (d : Pixel) (hc : ((raster (ty * w + tx) : Nat) : Int) = tc) :
    gifPixelResult raster cm tc w tx ty d = d := by
  unfold gifPixelResult
  rw [if_pos hc]

theorem gifPixelResult_valid (raster : Nat → Nat) (cm : ColorMap) (tc : Int)
    (w tx ty : Nat) (d : Pixel) (hc : ((raster (ty * w + tx) : Nat) : Int) ≠ tc)
    (hv : raster (ty * w + tx) < cm.colorCount) :
    gifPixelResult raster cm tc w tx ty d =
      ⟨(cm.colors (raster (ty * w + tx))).r, (cm.colors (raster (ty * w + tx))).g,
        (cm.colors (raster (ty * w + tx))).b, 255⟩ := by
  unfold gifPixelResult
  rw [if_neg hc]
  have hlook : gif_index_to_rgba cm ((raster (ty * w + tx) : Nat) : Int) tc =
      ⟨(cm.colors (raster (ty * w + tx))).r, (cm.colors (raster (ty * w + tx))).g,
        (cm.colors (raster (ty * w + tx))).b, 255⟩ := by
    unfold gif_index_to_rgba
    rw [if_neg (by
      push_neg
      exact ⟨Int.natCast_nonneg _, by exact_mod_cast hv⟩)]
    rw [if_neg hc]
    simp [Int.toNat_natCast]
  dsimp only
  rw [hlook]
  simp

theorem gifPixelResult_invalid (raster : Nat → Nat) (cm : ColorMap) (tc : Int)
    (w tx ty : Nat) (d : Pixel) (hc : ((raster (ty * w + tx) : Nat) : Int) ≠ tc)
    (hv : cm.colorCount ≤ raster (ty * w + tx)) :
    gifPixelResult raster cm tc w tx ty d = d := by
  unfold gifPixelResult
  rw [if_neg hc]
  have hlook : gif_index_to_rgba cm ((raster (ty * w + tx) : Nat) : Int) tc =
      ⟨0, 0, 0, 0⟩ := by
    unfold gif_index_to_rgba
    rw [if_pos (Or.inr (by exact_mod_cast hv))]
  dsimp only
  rw [hlook]
  simp

/-! Claim theorems. -/

/-- C1 (counterexample): the claim quantifies over every image
satisfying the canvas invariants, but on the invariant-satisfying canvas
`wideImg` (1249 opaque columns) and the valid even row 0,
`generate_line_ansi` returns `NULL` instead of emitting the per-column
escape sequence, because the line exceeds the fixed 51200-byte buffer. -/
theorem generate_line_ansi_not_total_on_valid_canvases :
    canvasInvariants wideImg ∧ 0 % 2 = 0 ∧ 0 + 1 < wideImg.height ∧
      generate_line_ansi wideImg 0 = none := by
  refine ⟨?_, rfl, by decide, wideImg_line_none⟩
  unfold canvasInvariants IMAGE_MAX_DIMENSION IMAGE_MAX_PIXELS
  decide

/-- C1 (amended): for every image satisfying the canvas invariants and
every even `y_top` with `y_top + 1 < height`, provided the line's escape
sequence fits the fixed line buffer, `generate_line_ansi` emits, for
each column in left-to-right order, the background escape from the top
pixel (transparent when `alpha < 128`, else true-color RGB), then the
foreground escape from the bottom pixel (reset-plus-space when
`alpha < 128`, else true-color RGB followed by U+2584), and after the
last column the full attribute reset and a newline — exactly
`fullLine`. -/
theorem generate_line_ansi_emits_ordered_escapes (img : Image) (y_top : Nat)
    (hinv : canvasInvariants img) (hy : y_top % 2 = 0) (hyh : y_top + 1 < img.height)
    (hfit : strBytes (fullLine img y_top) < MAX_LINE_BUFFER_SIZE) :
    generate_line_ansi img y_top = some (fullLine img y_top) :=
  generate_line_succeeds img y_top hy hyh hfit

/-- Witness for C1's amended theorem at a concrete 2 × 2 opaque white
canvas. -/
theorem generate_line_ansi_emits_ordered_escapes_witness :
    generate_line_ansi tinyWhiteImg 0 = some (fullLine tinyWhiteImg 0) :=
  generate_line_ansi_emits_ordered_escapes tinyWhiteImg 0
    (by unfold canvasInvariants IMAGE_MAX_DIMENSION IMAGE_MAX_PIXELS; decide)
    (by decide) (by decide) (by decide)

/-- C2 (counterexample): `wideImg` has height 2 and satisfies the canvas
invariants, yet `generate_frame_ansi` fails (returning `NULL` without
storing a line count) instead of succeeding with `height / 2` lines,
because the single line overflows the fixed line buffer. -/
theorem generate_frame_ansi_fails_on_wide_canvas :
    2 ≤ wideImg.height ∧ canvasInvariants wideImg ∧
      generate_frame_ansi wideImg = (none, none) := by
  refine ⟨by decide, ?_, wideImg_frame_none⟩
  unfold canvasInvariants IMAGE_MAX_DIMENSION IMAGE_MAX_PIXELS
  decide

/-- C2 (amended): for every byte-valued image whose lines fit the fixed
line buffer (guaranteed for width ≤ 1000), `generate_frame_ansi`
succeeds with exactly `height / 2` output lines when `height ≥ 2` — an
odd final pixel row is silently dropped — and returns the empty-result
failure with a stored line count of zero when `height < 2`. -/
theorem generate_frame_ansi_line_count (img : Image) (hbb : byteBounded img) :
    (2 ≤ img.height → img.width ≤ 1000 →
      ∃ lines, generate_frame_ansi img = (some lines, some (img.height / 2)) ∧
        lines.length = img.height / 2) ∧
    (img.height < 2 → generate_frame_ansi img = (none, some 0)) := by
  constructor
  · intro h2 hw
    refine ⟨_, generate_frame_succeeds img hbb h2 hw, ?_⟩
    simp [List.length_map, List.length_range]
  · exact generate_frame_short img

/-- Witness for C2's theorem at a 2 × 2 opaque white canvas (one line)
and a 1 × 1 canvas (empty-result failure). -/
theorem generate_frame_ansi_line_count_witness :
    (∃ lines, generate_frame_ansi tinyWhiteImg =
        (some lines, some (tinyWhiteImg.height / 2)) ∧
      lines.length = tinyWhiteImg.height / 2) ∧
    generate_frame_ansi ⟨1, 1, fun _ => ⟨0, 0, 0, 0⟩⟩ = (none, some 0) :=
  ⟨(generate_frame_ansi_line_count tinyWhiteImg
      (fun _ => ⟨Nat.le.refl, Nat.le.refl, Nat.le.refl⟩)).1 (by decide) (by decide),
   (generate_frame_ansi_line_count ⟨1, 1, fun _ => ⟨0, 0, 0, 0⟩⟩
      (fun _ => ⟨Nat.zero_le 255, Nat.zero_le 255, Nat.zero_le 255⟩)).2 (by decide)⟩

/-- C9: for every image and row, with the caller-supplied buffer of the
fixed `MAX_LINE_BUFFER_SIZE` capacity: any successful result is the
complete line — never a partial one — and its byte size stays strictly
below the buffer capacity (leaving room for the terminating NUL, so no
byte is written beyond the buffer); and whenever the generated escape
sequence would not fit the buffer, `generate_line_ansi` fails with
`NULL`. -/
theorem generate_line_ansi_all_or_nothing (img : Image) (y_top : Nat) :
    (∀ s, generate_line_ansi img y_top = some s →
      s = fullLine img y_top ∧ strBytes s < MAX_LINE_BUFFER_SIZE) ∧
    (MAX_LINE_BUFFER_SIZE ≤ strBytes (fullLine img y_top) →
      generate_line_ansi img y_top = none) := by
  constructor
  · intro s h
    obtain ⟨hs, hb⟩ := generate_line_some img y_top s h
    exact ⟨hs, by rw [hs]; exact hb⟩
  · intro hge
    rcases h : generate_line_ansi img y_top with _ | s
    · rfl
    · exfalso
      have hb := (generate_line_some img y_top s h).2
      omega

/-- Witness for C9 at a concrete fully transparent 2 × 2 canvas
(success branch) and at `wideImg` (overflow branch). -/
theorem generate_line_ansi_all_or_nothing_witness :
    (fullLine tinyClearImg 0 = fullLine tinyClearImg 0 ∧
      strBytes (fullLine tinyClearImg 0) < MAX_LINE_BUFFER_SIZE) ∧
    generate_line_ansi wideImg 0 = none :=
  ⟨(generate_line_ansi_all_or_nothing tinyClearImg 0).1 (fullLine tinyClearImg 0)
      (by decide),
   (generate_line_ansi_all_or_nothing wideImg 0).2
      (by rw [wideImg_fullLine_bytes]; unfold MAX_LINE_BUFFER_SIZE; omega)⟩

/-- C3 (counterexample): compositing the source pixel (255, 0, 0, 1)
with blend mode `Over` onto a (255, 0, 0, 1) accumulator pixel stores
red channel 253, not the value 509 demanded by the claim's channel
formula — the `uint8_t` store truncates the quotient modulo 256. -/
theorem apng_over_blend_channel_wraps :
    ((apng_composite_frame overflowDst overflowSrc 0 0 1 1 1 1
        PNG_BLEND_OP_OVER).pixels 0).r = 253 ∧
    (255 * 1 + 255 * 1 * (255 - 1) / 255) / (1 + 1 * (255 - 1) / 255) = 509 ∧
    ((apng_composite_frame overflowDst overflowSrc 0 0 1 1 1 1
        PNG_BLEND_OP_OVER).pixels 0).r ≠
      (255 * 1 + 255 * 1 * (255 - 1) / 255) / (1 + 1 * (255 - 1) / 255) := by
  refine ⟨?_, by norm_num, ?_⟩ <;> decide

/-- C3 (amended): for every in-bounds frame-region pixel with `uint8_t`
alpha values, blend mode `Source` overwrites the accumulator pixel with
the source RGBA unconditionally (including fully transparent source
pixels), while blend mode `Over` sets
`out_alpha = src_a + dst_a*(255-src_a)/255` and, when `out_alpha > 0`,
sets each colour channel to
`((src_c*src_a + dst_c*dst_a*(255-src_a)/255) / out_alpha) % 256` —
the `uint8_t` store truncates quotients above 255 — and the alpha
channel to `out_alpha`, leaving the pixel untouched when
`out_alpha = 0`. -/
theorem apng_composite_pixel_semantics (acc : Image) (fp : Nat → Pixel)
    (x_off y_off fw fh cw ch tx ty : Nat)
    (htx : tx < fw) (hty : ty < fh) (hcx : x_off + tx < cw) (hcy : y_off + ty < ch)
    (hsa : (fp (ty * fw + tx)).a ≤ 255)
    (hda : (acc.pixels ((y_off + ty) * cw + (x_off + tx))).a ≤ 255) :
    ((apng_composite_frame acc fp x_off y_off fw fh cw ch PNG_BLEND_OP_SOURCE).pixels
        ((y_off + ty) * cw + (x_off + tx)) = fp (ty * fw + tx)) ∧
    (0 < (fp (ty * fw + tx)).a +
        (acc.pixels ((y_off + ty) * cw + (x_off + tx))).a *
          (255 - (fp (ty * fw + tx)).a) / 255 →
      (apng_composite_frame acc fp x_off y_off fw fh cw ch PNG_BLEND_OP_OVER).pixels
          ((y_off + ty) * cw + (x_off + tx)) =
        ⟨((fp (ty * fw + tx)).r * (fp (ty * fw + tx)).a +
            (acc.pixels ((y_off + ty) * cw + (x_off + tx))).r *
              (acc.pixels ((y_off + ty) * cw + (x_off + tx))).a *
              (255 - (fp (ty * fw + tx)).a) / 255) /
            ((fp (ty * fw + tx)).a +
              (acc.pixels ((y_off + ty) * cw + (x_off + tx))).a *
                (255 - (fp (ty * fw + tx)).a) / 255) % 256,
          ((fp (ty * fw + tx)).g * (fp (ty * fw + tx)).a +
            (acc.pixels ((y_off + ty) * cw + (x_off + tx))).g *
              (acc.pixels ((y_off + ty) * cw + (x_off + tx))).a *
              (255 - (fp (ty * fw + tx)).a) / 255) /
            ((fp (ty * fw + tx)).a +
              (acc.pixels ((y_off + ty) * cw + (x_off + tx))).a *
                (255 - (fp (ty * fw + tx)).a) / 255) % 256,
          ((fp (ty * fw + tx)).b * (fp (ty * fw + tx)).a +
            (acc.pixels ((y_off + ty) * cw + (x_off + tx))).b *
              (acc.pixels ((y_off + ty) * cw + (x_off + tx))).a *
              (255 - (fp (ty * fw + tx)).a) / 255) /
            ((fp (ty * fw + tx)).a +
              (acc.pixels ((y_off + ty) * cw + (x_off + tx))).a *
                (255 - (fp (ty * fw + tx)).a) / 255) % 256,
          (fp (ty * fw + tx)).a +
            (acc.pixels ((y_off + ty) * cw + (x_off + tx))).a *
              (255 - (fp (ty * fw + tx)).a) / 255⟩) ∧
    ((fp (ty * fw + tx)).a +
        (acc.pixels ((y_off + ty) * cw + (x_off + tx))).a *
          (255 - (fp (ty * fw + tx)).a) / 255 = 0 →
      (apng_composite_frame acc fp x_off y_off fw fh cw ch PNG_BLEND_OP_OVER).pixels
          ((y_off + ty) * cw + (x_off + tx)) =
        acc.pixels ((y_off + ty) * cw + (x_off + tx))) := by
  have hsrc := apng_composite_pixel acc fp x_off y_off fw fh cw ch PNG_BLEND_OP_SOURCE
    tx ty htx hty hcx hcy
  have hover := apng_composite_pixel acc fp x_off y_off fw fh cw ch PNG_BLEND_OP_OVER
    tx ty htx hty hcx hcy
  have houta : (fp (ty * fw + tx)).a +
      (acc.pixels ((y_off + ty) * cw + (x_off + tx))).a *
        (255 - (fp (ty * fw + tx)).a) / 255 ≤ 255 := by
    have hmul : (acc.pixels ((y_off + ty) * cw + (x_off + tx))).a *
        (255 - (fp (ty * fw + tx)).a) ≤ 255 * (255 - (fp (ty * fw + tx)).a) :=
      Nat.mul_le_mul_right _ hda
    have hdiv : (acc.pixels ((y_off + ty) * cw + (x_off + tx))).a *
        (255 - (fp (ty * fw + tx)).a) / 255 ≤
        255 * (255 - (fp (ty * fw + tx)).a) / 255 :=
      Nat.div_le_div_right hmul
    have hcan : 255 * (255 - (fp (ty * fw + tx)).a) / 255 =
        255 - (fp (ty * fw + tx)).a :=
      Nat.mul_div_cancel_left _ (by norm_num)
    omega
  refine ⟨?_, ?_, ?_⟩
  · rw [hsrc]
    unfold compositePixelPng
    rw [if_pos rfl]
  · intro hpos
    rw [hover]
    unfold compositePixelPng
    rw [if_neg (by decide)]
    unfold blendOver
    dsimp only
    rw [if_pos hpos]
    have hmod : ((fp (ty * fw + tx)).a +
        (acc.pixels ((y_off + ty) * cw + (x_off + tx))).a *
          (255 - (fp (ty * fw + tx)).a) / 255) % 256 =
        (fp (ty * fw + tx)).a +
          (acc.pixels ((y_off + ty) * cw + (x_off + tx))).a *
            (255 - (fp (ty * fw + tx)).a) / 255 :=
      Nat.mod_eq_of_lt (by omega)
    rw [hmod]
  · intro hzero
    rw [hover]
    unfold compositePixelPng
    rw [if_neg (by decide)]
    unfold blendOver
    dsimp only
    rw [if_neg (by omega)]

/-- Witness for C3's amended theorem at the concrete 1 × 1 accumulator
`overflowDst` and constant source `overflowSrc`. -/
theorem apng_composite_pixel_semantics_witness :
    (apng_composite_frame overflowDst overflowSrc 0 0 1 1 1 1
        PNG_BLEND_OP_SOURCE).pixels 0 = ⟨255, 0, 0, 1⟩ := by
  have h := (apng_composite_pixel_semantics overflowDst overflowSrc 0 0 1 1 1 1 0 0
    (by decide) (by decide) (by decide) (by decide) (by decide) (by decide)).1
  simpa using h

/-- C4 (counterexample): the GIF compositor never raises a
region-out-of-bounds error: with a 2 × 2 frame placed at offset (1, 1)
on a 2 × 2 canvas, `frame_composition` silently clips and still
composites the single in-bounds pixel (1, 1), and `decode_gif_animated`
succeeds on such a frame. -/
theorem gif_oob_region_still_composites :
    (frame_composition cexGifAcc (fun _ => 0) cexColorMap (-1) 1 1 2 2 2 2).pixels 3 =
        ⟨7, 8, 9, 255⟩ ∧
      cexGifAcc.pixels 3 = ⟨0, 0, 0, 0⟩ ∧
      (decode_gif_animated 2 2 [cexOobGifFrame]).isSome = true := by
  refine ⟨?_, ?_, ?_⟩ <;> decide

/-- C4 (amended): a frame region that does not fit the canvas makes the
APNG decoder loop fail before compositing any pixels, while the GIF
compositor performs no region bounds check at all: it clips, still
compositing every in-bounds region pixel whose valid raster index
differs from the transparent index. -/
theorem apng_rejects_oob_region_gif_clips :
    (∀ (cw ch : Nat) (st : CompositorState) (f : ApngFrame),
      cw < f.x_offset + f.width ∨ ch < f.y_offset + f.height →
      pngProcessFrame cw ch st f = none) ∧
    (∀ (acc : Image) (raster : Nat → Nat) (cm : ColorMap) (tc : Int)
      (left top w h cw ch tx ty : Nat),
      acc.width = cw → acc.height = ch → tx < w → ty < h →
      left + tx < cw → top + ty < ch →
      ((raster (ty * w + tx) : Nat) : Int) ≠ tc →
      raster (ty * w + tx) < cm.colorCount →
      (frame_composition acc raster cm tc left top w h cw ch).pixels
          ((top + ty) * cw + (left + tx)) =
        ⟨(cm.colors (raster (ty * w + tx))).r, (cm.colors (raster (ty * w + tx))).g,
          (cm.colors (raster (ty * w + tx))).b, 255⟩) := by
  constructor
  · intro cw ch st f hbad
    unfold pngProcessFrame
    rw [if_pos hbad]
  · intro acc raster cm tc left top w h cw ch tx ty hbw hbh htx hty hcx hcy hne hv
    rw [frame_composition_pixel acc raster cm tc left top w h cw ch tx ty hbw hbh
      htx hty hcx hcy]
    exact gifPixelResult_valid raster cm tc w tx ty _ hne hv

/-- Witness for C4's amended theorem: a concrete out-of-bounds APNG
frame is rejected, and the clipped GIF frame of the counterexample has
its in-bounds pixel composited. -/
theorem apng_rejects_oob_region_gif_clips_witness :
    pngProcessFrame 2 2 witState cexOobApngFrame = none ∧
    (frame_composition cexGifAcc (fun _ => 0) cexColorMap (-1) 1 1 2 2 2 2).pixels 3 =
      ⟨7, 8, 9, 255⟩ := by
  constructor
  · exact (apng_rejects_oob_region_gif_clips).1 2 2 witState cexOobApngFrame (by decide)
  · have h := (apng_rejects_oob_region_gif_clips).2 cexGifAcc (fun _ => 0) cexColorMap
      (-1) 1 1 2 2 2 2 0 0 (by decide) (by decide) (by decide) (by decide) (by decide)
      (by decide) (by decide) (by decide)
    simpa using h

/-- C8 (counterexample): a raster index lying outside the colour map
(index 1 with a one-entry map, no transparent index declared) differs
from the transparent index, yet the accumulator pixel is left untouched
instead of being overwritten with its looked-up RGBA colour
(transparent black). -/
theorem gif_invalid_index_not_overwritten :
    (frame_composition cexGifAcc1 cexInvalidIndexRaster cexColorMap (-1)
        0 0 1 1 1 1).pixels 0 = ⟨9, 9, 9, 9⟩ ∧
      gif_index_to_rgba cexColorMap 1 (-1) = ⟨0, 0, 0, 0⟩ ∧
      (⟨9, 9, 9, 9⟩ : Pixel) ≠ ⟨0, 0, 0, 0⟩ := by
  refine ⟨?_, ?_, ?_⟩ <;> decide

/-- C8 (amended): in GIF frame composition, for every in-bounds region
pixel: a raster index equal to the transparent index is skipped
entirely — neither colour nor alpha of the accumulator pixel changes;
an index that differs from the transparent index and is a valid
colour-map index overwrites the accumulator pixel with its looked-up
RGBA colour (alpha 255); and an index outside the colour map looks up
as transparent black (alpha 0 < 128) and is likewise skipped. -/
theorem gif_transparent_index_skip_semantics (acc : Image) (raster : Nat → Nat)
    (cm : ColorMap) (tc : Int) (left top w h cw ch tx ty : Nat)
    (hbw : acc.width = cw) (hbh : acc.height = ch) (htx : tx < w) (hty : ty < h)
    (hcx : left + tx < cw) (hcy : top + ty < ch) :
    (((raster (ty * w + tx) : Nat) : Int) = tc →
      (frame_composition acc raster cm tc left top w h cw ch).pixels
          ((top + ty) * cw + (left + tx)) =
        acc.pixels ((top + ty) * cw + (left + tx))) ∧
    (((raster (ty * w + tx) : Nat) : Int) ≠ tc →
      raster (ty * w + tx) < cm.colorCount →
      (frame_composition acc raster cm tc left top w h cw ch).pixels
          ((top + ty) * cw + (left + tx)) =
        ⟨(cm.colors (raster (ty * w + tx))).r, (cm.colors (raster (ty * w + tx))).g,
          (cm.colors (raster (ty * w + tx))).b, 255⟩) ∧
    (((raster (ty * w + tx) : Nat) : Int) ≠ tc →
      cm.colorCount ≤ raster (ty * w + tx) →
      (frame_composition acc raster cm tc left top w h cw ch).pixels
          ((top + ty) * cw + (left + tx)) =
        acc.pixels ((top + ty) * cw + (left + tx))) := by
  have hpix := frame_composition_pixel acc raster cm tc left top w h cw ch tx ty
    hbw hbh htx hty hcx hcy
  refine ⟨?_, ?_, ?_⟩
  · intro hc
    rw [hpix, gifPixelResult_transparent raster cm tc w tx ty _ hc]
  · intro hc hv
    rw [hpix, gifPixelResult_valid raster cm tc w tx ty _ hc hv]
  · intro hc hv
    rw [hpix, gifPixelResult_invalid raster cm tc w tx ty _ hc hv]

/-- Witness for C8's amended theorem: on a 1 × 1 canvas, palette index 0
(valid, not transparent) overwrites the (9, 9, 9, 9) accumulator pixel
with colour (7, 8, 9, 255). -/
theorem gif_transparent_index_skip_semantics_witness :
    (frame_composition cexGifAcc1 (fun _ => 0) cexColorMap (-1) 0 0 1 1 1 1).pixels 0 =
      ⟨7, 8, 9, 255⟩ := by
  have h := (gif_transparent_index_skip_semantics cexGifAcc1 (fun _ => 0) cexColorMap
    (-1) 0 0 1 1 1 1 0 0 (by decide) (by decide) (by decide) (by decide) (by decide)
    (by decide)).2.1 (by decide) (by decide)
  simpa using h

/-- C5: for every frame with disposal mode `Previous` (in both the GIF
and the APNG compositor loop), the backup taken before applying the
frame's pixels holds exactly the pre-frame accumulator, the output
snapshot is the composited frame, and after the disposal step the
entire accumulator is restored to exactly that backed-up pre-frame
state. -/
theorem dispose_previous_restores_accumulator (cw ch : Nat) :
    (∀ (st : CompositorState) (f : GifFrame), f.disposalMode = DISPOSE_PREVIOUS →
      (∀ i, i < cw * ch →
        (gifFrameStep cw ch st f).1.acc.pixels i = st.acc.pixels i) ∧
      (∃ b, (gifFrameStep cw ch st f).1.previous = some b ∧
        ∀ i, i < cw * ch → b.pixels i = st.acc.pixels i) ∧
      (∀ i, i < cw * ch →
        (gifFrameStep cw ch st f).2.pixels i =
          (frame_composition st.acc f.raster f.colorMap f.transparentColor f.left f.top
            f.width f.height cw ch).pixels i)) ∧
    (∀ (st : CompositorState) (f : ApngFrame), f.dispose_op = PNG_DISPOSE_OP_PREVIOUS →
      f.x_offset + f.width ≤ cw → f.y_offset + f.height ≤ ch →
      ∀ st2 out, pngProcessFrame cw ch st f = some (st2, out) →
        (∀ i, i < cw * ch → st2.acc.pixels i = st.acc.pixels i) ∧
        (∃ b, st2.previous = some b ∧
          ∀ i, i < cw * ch → b.pixels i = st.acc.pixels i) ∧
        (∀ i, i < cw * ch → out.pixels i =
          (apng_composite_frame st.acc f.pixels f.x_offset f.y_offset f.width f.height
            cw ch f.blend_op).pixels i)) := by
  constructor
  · intro st f hdisp
    rw [gifFrameStep_previous cw ch st f hdisp]
    refine ⟨?_, ⟨copyCanvas cw ch st.acc, rfl, ?_⟩, ?_⟩
    · intro i hi
      simp [overwriteCanvas, copyCanvas, hi]
    · intro i hi
      simp [copyCanvas, hi]
    · intro i hi
      simp [copyCanvas, hi]
  · intro st f hdisp hfw hfh st2 out heq
    rw [pngProcessFrame_previous cw ch st f hdisp ⟨hfw, hfh⟩] at heq
    simp only [Option.some.injEq, Prod.mk.injEq] at heq
    obtain ⟨hst2, hout⟩ := heq
    subst hst2
    subst hout
    refine ⟨?_, ⟨copyCanvas cw ch st.acc, rfl, ?_⟩, ?_⟩
    · intro i hi
      simp [overwriteCanvas, copyCanvas, hi]
    · intro i hi
      simp [copyCanvas, hi]
    · intro i hi
      simp [copyCanvas, hi]

/-- Witness for C5 on a 1 × 1 canvas: the GIF step with disposal
`Previous` restores the accumulator pixel, and the APNG step with
disposal `Previous` succeeds. -/
theorem dispose_previous_restores_accumulator_witness :
    (gifFrameStep 1 1 witState witGifFramePrev).1.acc.pixels 0 =
        witState.acc.pixels 0 ∧
    (pngProcessFrame 1 1 witState witApngFramePrev).isSome = true := by
  constructor
  · exact ((dispose_previous_restores_accumulator 1 1).1 witState witGifFramePrev
      (by decide)).1 0 (by decide)
  · rcases heq : pngProcessFrame 1 1 witState witApngFramePrev with _ | p
    · exfalso
      have hp := pngProcessFrame_previous 1 1 witState witApngFramePrev (by decide)
        (by decide)
      rw [heq] at hp
      cases hp
    · obtain ⟨st2, out⟩ := p
      have hres := (dispose_previous_restores_accumulator 1 1).2 witState
        witApngFramePrev (by decide) (by decide) (by decide) st2 out heq
      rfl

/-- C6: after compositing a frame with disposal mode `Background` (in
both the GIF and the APNG compositor loop), the accumulator holds fully
transparent (0, 0, 0, 0) pixels at exactly the positions inside that
frame's region, and every canvas pixel outside the region keeps the
value it had when the frame's output snapshot was taken. -/
theorem dispose_background_clears_region_only (cw ch : Nat) :
    (∀ (st : CompositorState) (f : GifFrame),
      st.acc.width = cw → st.acc.height = ch → f.disposalMode = DISPOSE_BACKGROUND →
      ∀ qx qy, qx < cw → qy < ch →
        ((f.left ≤ qx ∧ qx < f.left + f.width ∧ f.top ≤ qy ∧ qy < f.top + f.height) →
          (gifFrameStep cw ch st f).1.acc.pixels (qy * cw + qx) = ⟨0, 0, 0, 0⟩) ∧
        (¬(f.left ≤ qx ∧ qx < f.left + f.width ∧ f.top ≤ qy ∧ qy < f.top + f.height) →
          (gifFrameStep cw ch st f).1.acc.pixels (qy * cw + qx) =
            (gifFrameStep cw ch st f).2.pixels (qy * cw + qx))) ∧
    (∀ (st : CompositorState) (f : ApngFrame),
      st.acc.width = cw → st.acc.height = ch → f.dispose_op = PNG_DISPOSE_OP_BACKGROUND →
      f.x_offset + f.width ≤ cw → f.y_offset + f.height ≤ ch →
      ∀ st2 out, pngProcessFrame cw ch st f = some (st2, out) →
      ∀ qx qy, qx < cw → qy < ch →
        ((f.x_offset ≤ qx ∧ qx < f.x_offset + f.width ∧ f.y_offset ≤ qy ∧
            qy < f.y_offset + f.height) →
          st2.acc.pixels (qy * cw + qx) = ⟨0, 0, 0, 0⟩) ∧
        (¬(f.x_offset ≤ qx ∧ qx < f.x_offset + f.width ∧ f.y_offset ≤ qy ∧
            qy < f.y_offset + f.height) →
          st2.acc.pixels (qy * cw + qx) = out.pixels (qy * cw + qx))) := by
  constructor
  · intro st f hbw hbh hdisp qx qy hqx hqy
    rw [gifFrameStep_background cw ch st f hdisp]
    dsimp only
    have hdims := frame_composition_dims st.acc f.raster f.colorMap f.transparentColor
      f.left f.top f.width f.height cw ch
    have hdw : (frame_composition st.acc f.raster f.colorMap f.transparentColor f.left
        f.top f.width f.height cw ch).width = cw := hdims.1.trans hbw
    have hdh : (frame_composition st.acc f.raster f.colorMap f.transparentColor f.left
        f.top f.width f.height cw ch).height = ch := hdims.2.trans hbh
    constructor
    · intro hin
      have e1 : f.left + (qx - f.left) = qx := by omega
      have e2 : f.top + (qy - f.top) = qy := by omega
      have key := clearRegion_pixel_in _ f.left f.top f.width f.height cw ch hdw hdh
        (qx - f.left) (qy - f.top) (by omega) (by omega) (by omega) (by omega)
      rw [e1, e2] at key
      exact key
    · intro hout
      rw [clearRegion_pixel_out _ f.left f.top f.width f.height cw ch hdw hdh qx qy
        hqx hqy hout]
      simp [copyCanvas, idx_lt_canvas cw ch qx qy hqx hqy]
  · intro st f hbw hbh hdisp hfw hfh st2 out heq qx qy hqx hqy
    rw [pngProcessFrame_background cw ch st f hdisp ⟨hfw, hfh⟩] at heq
    simp only [Option.some.injEq, Prod.mk.injEq] at heq
    obtain ⟨hst2, hout⟩ := heq
    subst hst2
    subst hout
    dsimp only
    have hdims := apng_composite_dims st.acc f.pixels f.x_offset f.y_offset f.width
      f.height cw ch f.blend_op
    have hdw : (apng_composite_frame st.acc f.pixels f.x_offset f.y_offset f.width
        f.height cw ch f.blend_op).width = cw := hdims.1.trans hbw
    have hdh : (apng_composite_frame st.acc f.pixels f.x_offset f.y_offset f.width
        f.height cw ch f.blend_op).height = ch := hdims.2.trans hbh
    constructor
    · intro hin
      have e1 : f.x_offset + (qx - f.x_offset) = qx := by omega
      have e2 : f.y_offset + (qy - f.y_offset) = qy := by omega
      have key := clearRegion_pixel_in _ f.x_offset f.y_offset f.width f.height cw ch
        hdw hdh (qx - f.x_offset) (qy - f.y_offset) (by omega) (by omega) (by omega)
        (by omega)
      rw [e1, e2] at key
      exact key
    · intro hout
      rw [clearRegion_pixel_out _ f.x_offset f.y_offset f.width f.height cw ch hdw hdh
        qx qy hqx hqy hout]
      simp [copyCanvas, idx_lt_canvas cw ch qx qy hqx hqy]

/-- Witness for C6 on a 1 × 1 canvas: after a full-canvas frame with
disposal `Background`, the GIF accumulator pixel is transparent black,
and so is the APNG accumulator pixel. -/
theorem dispose_background_clears_region_only_witness :
    (gifFrameStep 1 1 witState witGifFrameBg).1.acc.pixels 0 = ⟨0, 0, 0, 0⟩ ∧
    ((pngProcessFrame 1 1 witState witApngFrameBg).map fun p => p.1.acc.pixels 0) =
      some ⟨0, 0, 0, 0⟩ := by
  constructor
  · exact ((dispose_background_clears_region_only 1 1).1 witState witGifFrameBg
      (by decide) (by decide) (by decide) 0 0 (by decide) (by decide)).1 (by decide)
  · have heq := pngProcessFrame_background 1 1 witState witApngFrameBg (by decide)
      (by decide)
    have h2 := ((dispose_background_clears_region_only 1 1).2 witState witApngFrameBg
      (by decide) (by decide) (by decide) (by decide) (by decide) _ _ heq 0 0
      (by decide) (by decide)).1 (by decide)
    rw [heq]
    exact congrArg some h2

/-- C7: both animated decoders clamp the declared frame count to the
hard cap of 200 frames while recording the truncation warning — a
truncation, not a failure — and for declared counts of at most 200 they
process all declared frames: the number of composited output frames is
always `min declared 200`, and the warning fires exactly when the
declared count exceeds 200. -/
theorem animation_frame_cap (cw ch : Nat) (hdims : imageDimsOk cw ch) :
    (∀ declared : List GifFrame, declared.length ≠ 0 →
      ∃ frames, decode_gif_animated cw ch declared =
          some (frames, decide (MAX_GIF_FRAMES < declared.length)) ∧
        frames.length = min declared.length MAX_GIF_FRAMES) ∧
    (∀ declared : List ApngFrame, declared.length ≠ 0 →
      (∀ f ∈ declared.take (min declared.length MAX_PNG_FRAMES),
        f.x_offset + f.width ≤ cw ∧ f.y_offset + f.height ≤ ch) →
      ∃ frames, decode_png_animated cw ch declared =
          some (frames, decide (MAX_PNG_FRAMES < declared.length)) ∧
        frames.length = min declared.length MAX_PNG_FRAMES) := by
  constructor
  · intro declared hne
    unfold decode_gif_animated
    rw [if_neg hne, image_create_ok cw ch hdims]
    dsimp only
    refine ⟨_, rfl, ?_⟩
    rw [gifRunFrames_length, List.length_take]
    omega
  · intro declared hne hfits
    unfold decode_png_animated
    dsimp only
    rw [if_neg (by unfold MAX_PNG_FRAMES; omega), image_create_ok cw ch hdims]
    dsimp only
    obtain ⟨p, hrun, hlen⟩ := pngRunFrames_ok cw ch
      (declared.take (min declared.length MAX_PNG_FRAMES))
      ⟨{ width := cw, height := ch, pixels := fun _ => ⟨0, 0, 0, 0⟩ }, none⟩ hfits
    rw [hrun, Option.map_some']
    refine ⟨p.2, rfl, ?_⟩
    rw [hlen, List.length_take]
    omega

/-- Witness for C7 at one-frame GIF and APNG inputs on a 1 × 1 canvas:
one frame is composited and no truncation warning fires. -/
theorem animation_frame_cap_witness :
    ((decode_gif_animated 1 1 [witGifFrame]).map fun p => (p.1.length, p.2)) =
        some (1, false) ∧
    ((decode_png_animated 1 1 [witApngFrame]).map fun p => (p.1.length, p.2)) =
      some (1, false) := by
  have hd : imageDimsOk 1 1 := by
    unfold imageDimsOk IMAGE_MAX_DIMENSION IMAGE_MAX_PIXELS
    decide
  constructor
  · obtain ⟨frames, heq, hlen⟩ := (animation_frame_cap 1 1 hd).1 [witGifFrame]
      (by decide)
    rw [heq, Option.map_some']
    simp only [hlen]
    rfl
  · obtain ⟨frames, heq, hlen⟩ := (animation_frame_cap 1 1 hd).2 [witApngFrame]
      (by decide) (by decide)
    rw [heq, Option.map_some']
    simp only [hlen]
    rfl

/-- C10: whenever animated playback terminates (which only the
cancellation flag can cause), `render_animated`'s event trace ends by
showing the cursor, re-enabling the input echo it disabled, emitting an
attribute reset, and a final newline — and interpreting the whole trace
over the terminal state leaves the cursor visible and echo enabled from
any starting state, including when cancellation is observed before any
frame has been displayed. -/
theorem render_animated_cleanup_on_cancellation (running : Nat → Bool)
    (frame_count : Nat) (silent : Bool) (fps frameHeight fuel : Nat)
    (trace : List TermEvent)
    (h : render_animated running frame_count silent fps frameHeight fuel = some trace) :
    (∃ body, trace =
      [TermEvent.cursorHide, TermEvent.disableEcho, TermEvent.newline] ++ body ++
        [TermEvent.cursorShow, TermEvent.enableEcho, TermEvent.reset,
          TermEvent.newline]) ∧
    (∀ s0 : TermState, (trace.foldl applyEvent s0).cursorVisible = true ∧
      (trace.foldl applyEvent s0).echoOn = true) := by
  unfold render_animated at h
  split at h
  · cases h
  · dsimp only at h
    rcases houter : animOuter running silent frameHeight (1000000 / fps)
        (List.range frame_count) fuel 0 true with _ | loopEvs
    · rw [houter] at h
      simp at h
    · rw [houter] at h
      dsimp only at h
      simp only [Option.some.injEq] at h
      refine ⟨⟨loopEvs, h.symm⟩, fun s0 => ?_⟩
      have hstate : trace.foldl applyEvent s0 = ⟨true, true⟩ := by
        rw [← h, List.foldl_append]
        exact cleanup_suffix_state _
      rw [hstate]
      exact ⟨rfl, rfl⟩

/-- Witness for C10: with the cancellation flag already cleared before
the first read, playback shows zero frames and the trace is exactly the
setup events followed by the full cleanup sequence. -/
theorem render_animated_cleanup_on_cancellation_witness :
    render_animated (fun _ => false) 1 false 15 1 1 =
        some [TermEvent.cursorHide, TermEvent.disableEcho, TermEvent.newline,
          TermEvent.cursorShow, TermEvent.enableEcho, TermEvent.reset,
          TermEvent.newline] ∧
    (∃ body, [TermEvent.cursorHide, TermEvent.disableEcho, TermEvent.newline,
          TermEvent.cursorShow, TermEvent.enableEcho, TermEvent.reset,
          TermEvent.newline] =
      [TermEvent.cursorHide, TermEvent.disableEcho, TermEvent.newline] ++ body ++
        [TermEvent.cursorShow, TermEvent.enableEcho, TermEvent.reset,
          TermEvent.newline]) :=
  ⟨rfl, (render_animated_cleanup_on_cancellation (fun _ => false) 1 false 15 1 1 _
    rfl).1⟩

end Imgcat
